import Mathlib

/-!
Verification development for the data-transformation core of the
pensum-chart dashboard (`src/.streamlit/streamlit_app.py`).

The program is a pandas pipeline: fetched CSV text is tidied (`tidy_df`,
using `coerce_numbers`), sliced to a date window (`filter_period`) and
rebased to percent change from the first in-window value
(`normalize_from_first`).

Embedding conventions:

* Floating-point cell values are idealised as rationals; the IEEE-754
  special values that the pipeline can actually produce (NaN and the two
  infinities, from numpy elementwise arithmetic) are carried explicitly by
  the dynamic cell type `PyVal`, together with the pandas missing values
  (`NaT` / `pd.NA` / `None`, all collapsed into `PyVal.vnull`, and the
  float `NaN` as `PyVal.vnan`; both are "na" for pandas, see `PyVal.isna`).
* A pandas `DataFrame` is a `DynTable`: an ordered header list plus rows of
  dynamic cells.  Column access by label follows pandas: first matching
  header; a missing label raises `KeyError` (modelled with `Except`).
  Duplicate column labels (possible in pandas only in corner cases that
  make the very next pandas calls of `tidy_df` raise) are modelled as an
  explicit error.
* `pd.to_datetime(..., dayfirst=True, errors="coerce")` is modelled by
  `parse_date`, restricted to slash-separated numeric day-first dates with
  four-digit years inside the `datetime64[ns]` range; every other string is
  treated as unparseable and becomes `NaT` (`vnull`).
* `pd.to_numeric(..., errors="coerce")` is modelled by `parse_float`,
  restricted to optionally signed decimal literals without exponent;
  failures become the float `NaN` (`vnan`), as in pandas.
* `DataFrame.sort_values("Date")` sorts with numpy's default
  `kind="quicksort"`, i.e. the introspective quicksort of
  `numpy/_core/src/npysort` (`aquicksort_`: median-of-3 quicksort falling
  back to insertion sort on slices of at most `SMALL_QUICKSORT + 1 = 16`
  elements and to heapsort past the depth limit).  That algorithm is
  embedded faithfully below (`aquicksortArg`), because tie behaviour of the
  sort is observable in the output row order.
* Python object mutation is modelled separately by a small heap of frames
  (`Heap`), with each pipeline function rendered line by line as heap
  transformations, so that the no-mutation claims are actual theorems
  rather than artifacts of a pure embedding.
-/

namespace PensumChart

/-! ### Calendar dates -/

/-- Calendar date (year, month, day).  The pipeline's pandas timestamps all
come from parsing pure dates, so no time-of-day component is needed. -/
structure Date where
  year : Nat
  month : Nat
  day : Nat
deriving DecidableEq, Repr

/-- Packing of a date into a `Nat` that realises the lexicographic
(year, month, day) order for valid dates (`month ≤ 12`, `day ≤ 31`); this is
the order of the underlying `datetime64[ns]` values. -/
def Date.key (d : Date) : Nat := d.year * 10000 + d.month * 100 + d.day

/-- Strict order on dates, as numpy compares `datetime64` values. -/
def Date.blt (a b : Date) : Bool := Nat.blt a.key b.key

/-- Weak order on dates. -/
def Date.ble (a b : Date) : Bool := Nat.ble a.key b.key

/-- Gregorian leap-year rule, as implemented by the platform date library. -/
def isLeap (y : Nat) : Bool := (y % 4 == 0 && y % 100 != 0) || y % 400 == 0

/-- Number of days of month `m` of year `y` (Gregorian calendar). -/
def daysInMonth (y m : Nat) : Nat :=
  if m == 2 then (if isLeap y then 29 else 28)
  else if m == 4 || m == 6 || m == 9 || m == 11 then 30
  else 31

/-- Model of `ts - pd.DateOffset(months=k)`: shift the month index back by
`k` and clamp the day to the length of the landing month (pandas
`DateOffset` semantics, e.g. `2024-03-31 - 1 month = 2024-02-29`). -/
def subMonths (d : Date) (k : Nat) : Date :=
  let tot := d.year * 12 + (d.month - 1) - k
  let y := tot / 12
  let m := tot % 12 + 1
  ⟨y, m, min d.day (daysInMonth y m)⟩

/-- Model of `ts - pd.DateOffset(years=k)`: shift the year back by `k` and
clamp the day (only relevant for Feb 29). -/
def subYears (d : Date) (k : Nat) : Date :=
  let y := d.year - k
  ⟨y, d.month, min d.day (daysInMonth y d.month)⟩

/-! ### Dynamic cell values -/

/-- Dynamic pandas cell value.  `vnull` stands for the missing values
(`NaT`, `pd.NA`, `None`); `vnan` is the float `NaN` (also missing for
pandas, but a float); `vinf`/`vninf` are the float infinities, producible
by unguarded division. -/
inductive PyVal where
  | vstr (s : String)
  | vnum (q : ℚ)
  | vdate (d : Date)
  | vnull
  | vnan
  | vinf
  | vninf
deriving DecidableEq, Repr

/-- Model of `pandas.isna` on a cell: missing values and the float `NaN`
count as na; infinities and everything else do not. -/
def PyVal.isna : PyVal → Bool
  | vnull => true
  | vnan => true
  | _ => false

/-- Date payload of a cell, if it is a date. -/
def PyVal.toDate : PyVal → Option Date
  | vdate d => some d
  | _ => none

/-! ### String helpers (Python `str` methods restricted to what the app uses) -/

/-- Model of Python `str.strip()`: remove leading and trailing whitespace. -/
def pyStrip (s : String) : String :=
  ⟨(((s.data.dropWhile Char.isWhitespace).reverse.dropWhile Char.isWhitespace).reverse)⟩

/-- Model of `Series.str.replace(" ", "", regex=False)` on one cell: remove
every space character. -/
def removeSpaces (s : String) : String := ⟨s.data.filter (· != ' ')⟩

/-- Model of `Series.str.replace(",", ".", regex=False)` on one cell:
replace every comma by a period. -/
def commaToDot (s : String) : String :=
  ⟨s.data.map (fun c => if c == ',' then '.' else c)⟩

/-- Numeric value of a digit string (most significant digit first). -/
def digitsToNat (cs : List Char) : Nat :=
  cs.foldl (fun n c => n * 10 + (c.toNat - ('0').toNat)) 0

/-- Unsigned decimal literal: digits, optionally followed by a point and
more digits, with at least one digit overall. -/
def parseUnsigned (cs : List Char) : Option ℚ :=
  let ip := cs.takeWhile Char.isDigit
  match cs.dropWhile Char.isDigit with
  | [] => if ip.isEmpty then none else some (digitsToNat ip)
  | '.' :: fr =>
    if fr.all Char.isDigit && (!ip.isEmpty || !fr.isEmpty) then
      some ((digitsToNat ip : ℚ) + (digitsToNat fr : ℚ) / ((10 : ℚ) ^ fr.length))
    else none
  | _ => none

/-- Model of `pd.to_numeric(errors="coerce")` on one string cell,
restricted to optionally signed plain decimal literals (no exponent, no
embedded whitespace); everything else fails (`none`, coerced to `NaN` by
the caller). -/
def parse_float (s : String) : Option ℚ :=
  match s.data with
  | '-' :: cs => (parseUnsigned cs).map (fun q => -q)
  | '+' :: cs => parseUnsigned cs
  | cs => parseUnsigned cs

/-- Split a character list at every occurrence of `sep` (the segments
between separators, empty segments included), as Python splitting does. -/
def splitChar (sep : Char) : List Char → List (List Char)
  | [] => [[]]
  | c :: cs =>
    if c == sep then [] :: splitChar sep cs
    else
      match splitChar sep cs with
      | [] => [[c]]
      | g :: gs => (c :: g) :: gs

/-- Digit run of bounded length. -/
def isDigits (cs : List Char) (lo hi : Nat) : Bool :=
  cs.all Char.isDigit && lo ≤ cs.length && cs.length ≤ hi

/-- Model of `pd.to_datetime(cell, dayfirst=True, errors="coerce")` on one
string cell, restricted to `D/M/YYYY` numeric day-first dates (one or two
digit day and month, four digit year) that are valid calendar dates inside
the `datetime64[ns]` range; every other string is treated as unparseable
and becomes `NaT`. -/
def parse_date (s : String) : Option Date :=
  match splitChar ('/') s.data with
  | [ds, ms, ys] =>
    if isDigits ds 1 2 && isDigits ms 1 2 && isDigits ys 4 4 then
      let d := digitsToNat ds
      let m := digitsToNat ms
      let y := digitsToNat ys
      if 1 ≤ m && m ≤ 12 && 1 ≤ d && d ≤ daysInMonth y m
          && 1678 ≤ y && y ≤ 2261 then
        some ⟨y, m, d⟩
      else none
    else none
  | _ => none

/-! ### Dynamic tables (pandas DataFrames) -/

/-- Model of a pandas `DataFrame`: ordered column labels plus rows of
dynamic cells.  Row `r`'s cell for column `i` is `r.getD i vnull` (pandas
fills missing cells with na). -/
structure DynTable where
  headers : List String
  cells : List (List PyVal)
deriving DecidableEq, Repr

/-- Index of the first column with the given label, as pandas label lookup
resolves it (labels are unique in every frame the pipeline builds). -/
def DynTable.colIdx? (df : DynTable) (c : String) : Option Nat :=
  df.headers.findIdx? (· == c)

/-- Cell of row `r` at column position `i`. -/
def cellAt (r : List PyVal) (i : Nat) : PyVal := r.getD i PyVal.vnull

/-- Values of the column at position `i`, top to bottom. -/
def DynTable.colAt (df : DynTable) (i : Nat) : List PyVal :=
  df.cells.map (fun r => cellAt r i)

/-- Values of the column with label `c` (`df[c]`), if the label exists. -/
def DynTable.col? (df : DynTable) (c : String) : Option (List PyVal) :=
  (df.colIdx? c).map df.colAt

/-- Number of rows. -/
def DynTable.nrows (df : DynTable) : Nat := df.cells.length

/-- Rewriting every cell of column position `i` through `f`
(column assignment `df[c] = f(df[c])`). -/
def DynTable.mapColAt (df : DynTable) (i : Nat) (f : PyVal → PyVal) : DynTable :=
  { df with cells := df.cells.map (fun r => r.set i (f (cellAt r i))) }

/-- Model of `out[c] = vals` on a frame: overwrite the column if the label
exists, otherwise append it on the right (pandas column assignment). -/
def DynTable.upsertCol (df : DynTable) (c : String) (vals : List PyVal) : DynTable :=
  match df.colIdx? c with
  | some i => { df with cells := List.zipWith (fun r v => r.set i v) df.cells vals }
  | none => { headers := df.headers ++ [c],
              cells := List.zipWith (fun r v => r ++ [v]) df.cells vals }

/-! ### numpy argsort, `kind="quicksort"`

`DataFrame.sort_values("Date")` calls `nargsort(..., kind="quicksort")`,
which argsorts the `datetime64[ns]` column with numpy's introspective
quicksort (`aquicksort_` of `npysort`): median-of-3 quicksort on slices of
more than `SMALL_QUICKSORT = 15` elements (so slices of at least 17,
since bounds are inclusive), insertion sort on smaller slices, heapsort
once the depth budget `2 * msb(n)` is exhausted.  All loops below are
fueled; fuel is sized so that real runs always finish, and the permutation
lemmas hold for every fuel. -/

/-- Element of the argsort index array at `i` (the C code's `tosort[i]`). -/
def lget (t : List Nat) (i : Nat) : Nat := t.getD i 0

/-- Guarded swap of two positions of the index array (`INTP_SWAP`); the C
code only swaps in bounds, and out of bounds this is the identity. -/
def swapD (t : List Nat) (i j : Nat) : List Nat :=
  if i < t.length ∧ j < t.length then (t.set i (lget t j)).set j (lget t i) else t

/-- Stable insertion of index `i` into an already sorted index list:
`i` is placed before the first index with a strictly greater key, hence
after all indices with equal keys — exactly where the numpy insertion-sort
inner loop (which shifts while `v[tosort[pk]] > v[i]`, strictly) places
it. -/
def ains (klt : Nat → Nat → Bool) (i : Nat) : List Nat → List Nat
  | [] => [i]
  | j :: js => if klt i j then i :: j :: js else j :: ains klt i js

/-- Left-to-right insertion sort of an index list, as the numpy insertion
sort processes the slice (`for pi = pl+1 .. pr`, inserting into the sorted
front part). -/
def ainsSort (klt : Nat → Nat → Bool) (l : List Nat) : List Nat :=
  l.foldl (fun acc i => ains klt i acc) []

/-- Insertion sort of the inclusive slice `[pl..pr]` of the index array,
leaving the rest in place; the slice is rewritten to its stable insertion
sort, which is the net effect of the numpy loop. -/
def insertSeg (klt : Nat → Nat → Bool) (t : List Nat) (pl pr : Nat) : List Nat :=
  if pl ≤ pr + 1 then
    t.take pl ++ ainsSort klt ((t.drop pl).take (pr + 1 - pl)) ++ t.drop (pr + 1)
  else t

/-- Scan of the partition loop: `do { ++pi; } while (v[tosort[pi]] < vp);`
(`vp` is the key of the pivot index, which is saved before any further
swap, so comparing through the pivot's index is exact). -/
def scanUp (klt : Nat → Nat → Bool) (t : List Nat) (vp : Nat) :
    Nat → Nat → Nat
  | 0, pi => pi
  | fuel + 1, pi =>
    let pi2 := pi + 1
    if klt (lget t pi2) vp then scanUp klt t vp fuel pi2 else pi2

/-- Scan of the partition loop: `do { --pj; } while (vp < v[tosort[pj]]);`. -/
def scanDown (klt : Nat → Nat → Bool) (t : List Nat) (vp : Nat) :
    Nat → Nat → Nat
  | 0, pj => pj
  | fuel + 1, pj =>
    let pj2 := pj - 1
    if klt vp (lget t pj2) then scanDown klt t vp fuel pj2 else pj2

/-- Hoare-style partition exchange loop of `aquicksort_`: scan up, scan
down, swap, until the scans cross; returns the updated index array and the
crossing point `pi`. -/
def partLoop (klt : Nat → Nat → Bool) :
    Nat → List Nat → Nat → Nat → Nat → List Nat × Nat
  | 0, t, _, pi, _ => (t, pi)
  | fuel + 1, t, vp, pi, pj =>
    let pi2 := scanUp klt t vp t.length pi
    let pj2 := scanDown klt t vp t.length pj
    if pi2 ≥ pj2 then (t, pi2)
    else partLoop klt fuel (swapD t pi2 pj2) vp pi2 pj2

/-- One quicksort partition of the inclusive slice `[pl..pr]`: median-of-3
pivot selection (with its conditional swaps), pivot index parked at
`pr - 1`, exchange loop, final swap of the crossing point with the pivot;
returns the new index array and the pivot's final position `pi`. -/
def partStep (klt : Nat → Nat → Bool) (t : List Nat) (pl pr : Nat) :
    List Nat × Nat :=
  let pm := pl + (pr - pl) / 2
  let t1 := if klt (lget t pm) (lget t pl) then swapD t pm pl else t
  let t2 := if klt (lget t1 pr) (lget t1 pm) then swapD t1 pr pm else t1
  let t3 := if klt (lget t2 pm) (lget t2 pl) then swapD t2 pm pl else t2
  let vp := lget t3 pm
  let t4 := swapD t3 pm (pr - 1)
  let tp := partLoop klt t.length t4 vp pl (pr - 1)
  (swapD tp.1 tp.2 (pr - 1), tp.2)

/-- Entry `k` (1-based, as the heapsort views the slice) of the slice
starting at `pl`. -/
def hsGet (t : List Nat) (pl k : Nat) : Nat := lget t (pl + k - 1)

/-- Sift-down of numpy's `aheapsort_`, in swap form.  The C loop holds the
sifted element in `tmp` and copies the winning child upward, dropping `tmp`
at the end; performing the same comparisons with eager swaps visits the
same children (which lie strictly below every position already written)
and produces the same final array. -/
def siftDown (klt : Nat → Nat → Bool) :
    Nat → List Nat → Nat → Nat → Nat → List Nat
  | 0, t, _, _, _ => t
  | fuel + 1, t, pl, n, i =>
    let j0 := 2 * i
    if j0 ≤ n then
      let j := if j0 < n && klt (hsGet t pl j0) (hsGet t pl (j0 + 1))
               then j0 + 1 else j0
      if klt (hsGet t pl i) (hsGet t pl j) then
        siftDown klt fuel (swapD t (pl + i - 1) (pl + j - 1)) pl n j
      else t
    else t

/-- numpy `aheapsort_` on the slice of length `n` starting at `pl`:
build the max-heap (`for l = n >> 1; l > 0; --l`), then repeatedly move
the root behind the shrinking heap and sift the swapped-in element. -/
def aheapsort (klt : Nat → Nat → Bool) (t0 : List Nat) (pl n : Nat) :
    List Nat :=
  let th := (List.range (n / 2)).foldl
    (fun t r => siftDown klt n t pl n (n / 2 - r)) t0
  (List.range (n - 1)).foldl
    (fun t r =>
      let m := n - r
      siftDown klt m (swapD t pl (pl + m - 1)) pl (m - 1) 1) th

/-- numpy's `SMALL_QUICKSORT` threshold. -/
def SMALL_QUICKSORT : Nat := 15

/-- Position of the most significant bit (`npy_get_msb`); `npy_intp` is at
most 64 bits wide, so 64 halvings always suffice. -/
def npyGetMsb (n : Nat) : Nat := go 64 n where
  go : Nat → Nat → Nat
    | 0, _ => 0
    | fuel + 1, m => if m ≥ 2 then go fuel (m / 2) + 1 else 0

/-- Main loop of `aquicksort_`: the current inclusive slice is
`[pl..pr]` with depth budget `cdepth`; larger slices are partitioned (the
larger half pushed with the decremented budget), slices of at most 16
elements are insertion sorted, and a slice whose budget is exhausted is
heapsorted; finishing a slice pops the next one. -/
def aqsLoop (klt : Nat → Nat → Bool) :
    Nat → List Nat → Nat → Nat → Int → List (Nat × Nat × Int) → List Nat
  | 0, t, _, _, _, _ => t
  | fuel + 1, t, pl, pr, cdepth, stack =>
    if pr - pl > SMALL_QUICKSORT then
      if cdepth < 0 then
        let t1 := aheapsort klt t pl (pr + 1 - pl)
        match stack with
        | [] => t1
        | (pl2, pr2, d2) :: rest => aqsLoop klt fuel t1 pl2 pr2 d2 rest
      else
        let tp := partStep klt t pl pr
        let pi := tp.2
        let d2 := cdepth - 1
        if pi - pl < pr - pi then
          aqsLoop klt fuel tp.1 (pi + 1) pr d2 ((pl, pi - 1, d2) :: stack)
        else
          aqsLoop klt fuel tp.1 pl (pi - 1) d2 ((pi + 1, pr, d2) :: stack)
    else
      let t1 := insertSeg klt t pl pr
      match stack with
      | [] => t1
      | (pl2, pr2, d2) :: rest => aqsLoop klt fuel t1 pl2 pr2 d2 rest

/-- numpy argsort with `kind="quicksort"` over the list of keys: returns
the index array that, read left to right, lists the original positions in
sorted key order. -/
def aquicksortArg (keys : List Nat) : List Nat :=
  let n := keys.length
  if n = 0 then []
  else
    aqsLoop (fun i j => Nat.blt (keys.getD i 0) (keys.getD j 0))
      (2 * n + 8) (List.range n) 0 (n - 1) (2 * (npyGetMsb n : Int)) []

/-- Sort key of a row: the packed date in its `Date` cell (after
`dropna(subset=["Date"])` every such cell is a date). -/
def rowDateKey (di : Nat) (r : List PyVal) : Nat :=
  (((cellAt r di).toDate).getD ⟨0, 0, 0⟩).key

/-- Model of `df.sort_values("Date")` on the rows: argsort the date keys
with numpy's default quicksort and gather the rows in that order. -/
def sortValuesDate (rows : List (List PyVal)) (di : Nat) :
    List (List PyVal) :=
  (aquicksortArg (rows.map (rowDateKey di))).filterMap (fun i => rows.get? i)

/-! ### The pipeline functions -/

/-- Errors the pipeline can raise.  `schemaError` is the explicit
`raise ValueError("Fant ikke kolonnen ...")` of `tidy_df`; `keyError` is a
pandas label lookup failure (`df[c]` with a missing column); `typeError`
is elementwise arithmetic on non-float operands; `duplicateLabels` stands
for the pandas errors raised by `to_datetime`/`coerce_numbers` when column
labels collide after stripping (such frames never get further). -/
inductive PyErr where
  | schemaError
  | keyError (c : String)
  | typeError
  | duplicateLabels
deriving DecidableEq, Repr

/-- Model of `pd.to_datetime(dayfirst=True, errors="coerce")` on one cell:
strings go through `parse_date`, dates stay, anything unparseable becomes
`NaT` (`vnull`). -/
def to_datetime_cell : PyVal → PyVal
  | .vstr s => match parse_date s with
               | some d => .vdate d
               | none => .vnull
  | .vdate d => .vdate d
  | _ => .vnull

/-- One cell of `coerce_numbers` (source lines 52-57): stringify, drop
every space, turn commas into periods, then `pd.to_numeric(...,
errors="coerce")`; parse failure gives the float `NaN`.  Numbers
round-trip through `astype(str)` unchanged. -/
def coerce_cell : PyVal → PyVal
  | .vstr s => match parse_float (commaToDot (removeSpaces s)) with
               | some q => .vnum q
               | none => .vnan
  | .vnum q => .vnum q
  | _ => .vnan

/-- Model of `coerce_numbers` on a whole column. -/
def coerce_numbers (col : List PyVal) : List PyVal := col.map coerce_cell

/-- The coercion loop of `tidy_df`:
`for c in df.columns: if c == "Date": continue; df[c] = coerce_numbers(df[c])`.
With distinct labels this coerces every cell outside the `Date` column
(and, as pandas does, keeps rows rectangular). -/
def coerceNonDate (df : DynTable) : DynTable :=
  { df with cells := df.cells.map (fun r =>
      (List.range df.headers.length).map (fun i =>
        if df.headers.getD i ("") == ("Date") then cellAt r i
        else coerce_cell (cellAt r i))) }

/-- Model of `tidy_df` (source lines 59-74): copy, strip the headers,
require a `Date` column (else the explicit `ValueError`), parse the date
column, coerce every other column, drop rows with missing dates, and sort
by date with numpy's default quicksort. -/
def tidy_df (df0 : DynTable) : Except PyErr DynTable :=
  let df1 : DynTable := { df0 with headers := df0.headers.map pyStrip }
  match df1.colIdx? ("Date") with
  | none => .error .schemaError
  | some di =>
    if df1.headers.Nodup then
      let df2 := df1.mapColAt di to_datetime_cell
      let df3 := coerceNonDate df2
      let kept := df3.cells.filter (fun r => !(cellAt r di).isna)
      .ok { df3 with cells := sortValuesDate kept di }
    else .error .duplicateLabels

/-- Maximum of a list of dates (`Series.max()`, skipping na). -/
def dateMax? : List Date → Option Date
  | [] => none
  | d :: ds => some (ds.foldl (fun m x => if Date.blt m x then x else m) d)

/-- Minimum of a list of dates (`Series.min()`, skipping na). -/
def dateMin? : List Date → Option Date
  | [] => none
  | d :: ds => some (ds.foldl (fun m x => if Date.blt x m then x else m) d)

/-- Resolution of the period key against `end` (the data's maximum date):
`1M`/`3M` subtract calendar months, `YTD` is January 1 of `end`'s year,
`1Y` subtracts one calendar year, and `MAX` — like any unrecognized key,
via the trailing `else` of the source — is the minimum date present. -/
def periodStart (dates : List Date) (e : Date) (period_key : String) : Date :=
  if period_key == ("1M") then subMonths e 1
  else if period_key == ("3M") then subMonths e 3
  else if period_key == ("YTD") then ⟨e.year, 1, 1⟩
  else if period_key == ("1Y") then subYears e 1
  else (dateMin? dates).getD e

/-- Model of `filter_period` (source lines 76-89): empty frames are
returned unchanged; otherwise `end` is the maximum date of the `Date`
column, `start` comes from `periodStart`, and exactly the rows with
`start <= Date <= end` (`Series.between`, inclusive) are kept.  On a
nonempty frame without a `Date` column, `df["Date"]` raises.  A nonempty
frame whose `Date` column is all-`NaT` is filtered to no rows (`between`
against `NaT` bounds is everywhere false); such frames cannot come out of
`tidy_df`, which drops `NaT` rows. -/
def filter_period (df : DynTable) (period_key : String) : Except PyErr DynTable :=
  if df.cells.isEmpty then .ok df
  else
    match df.colIdx? ("Date") with
    | none => .error (.keyError ("Date"))
    | some di =>
      let dates := (df.colAt di).filterMap PyVal.toDate
      match dateMax? dates with
      | none => .ok { df with cells := [] }
      | some e =>
        let start := periodStart dates e period_key
        .ok { df with cells := df.cells.filter (fun r =>
          match (cellAt r di).toDate with
          | some d => Date.ble start d && Date.ble d e
          | none => false) }

/-- Elementwise `(value / base - 1.0) * 100.0` with numpy float semantics:
a missing or `NaN` input stays `NaN`; with `base = 0` the unguarded
division produces `inf`, `-inf` or `NaN` by the sign of the numerator
(finite nonzero inputs cannot otherwise leave the finite range in the
rational idealisation). -/
def rebase_cell (base : ℚ) : PyVal → PyVal
  | .vnum x =>
    if base = 0 then
      if 0 < x then .vinf else if x < 0 then .vninf else .vnan
    else .vnum ((x / base - 1) * 100)
  | _ => .vnan

/-- One iteration of the column loop of `normalize_from_first`:
`s = df[c].dropna()` (`df[c]` raising `KeyError` when the label is
absent); if `s` is empty then `out[c] = pd.NA`, otherwise
`base = s.iloc[0]` and `out[c] = (df[c] / base - 1.0) * 100.0` (raising
when `base` is not a float, as for the datetime `Date` column itself). -/
def normStep (df : DynTable) (out : DynTable) (c : String) :
    Except PyErr DynTable :=
  match df.colIdx? c with
  | none => .error (.keyError c)
  | some i =>
    match ((df.colAt i).filter (fun v => !v.isna)).head? with
    | none => .ok (out.upsertCol c (List.replicate df.nrows PyVal.vnull))
    | some (.vnum base) =>
      .ok (out.upsertCol c ((df.colAt i).map (rebase_cell base)))
    | some _ => .error .typeError

/-- Model of `normalize_from_first` (source lines 91-101):
`out = df[["Date"]].copy()`, then the column loop (`normStep`) over the
selected labels. -/
def normalize_from_first (df : DynTable) (cols : List String) :
    Except PyErr DynTable :=
  match df.colIdx? ("Date") with
  | none => .error (.keyError ("Date"))
  | some di =>
    let out0 : DynTable :=
      { headers := [("Date")], cells := df.cells.map (fun r => [cellAt r di]) }
    cols.foldlM (normStep df) out0

/-! ### Object heap: Python frame mutation made visible

The no-mutation and determinism claims are about Python objects, so the
three pipeline functions are also rendered against an explicit heap of
frames.  A reference is an index into the heap; allocation appends;
in-place pandas mutation (`df.columns = ...`, `df[c] = ...`) is `List.set`
at the mutated reference. -/

/-- Heap of live frames; references are list positions. -/
abbrev Heap := List DynTable

/-- Frame held by reference `r`. -/
def href (h : Heap) (r : Nat) : DynTable := h.getD r ⟨[], []⟩

/-- Heap rendering of `tidy_df`, line by line: `df = df.copy()` allocates;
the header assignment, the `Date` conversion and the numeric coercions
mutate that copy in place; `dropna(...).sort_values(...)` builds a fresh
frame, which is allocated and returned. -/
def tidy_df_heap (h : Heap) (r : Nat) : Heap × Except PyErr Nat :=
  let h1 := h ++ [href h r]
  let r1 := h.length
  let h2 := h1.set r1 { href h1 r1 with headers := (href h1 r1).headers.map pyStrip }
  match (href h2 r1).colIdx? ("Date") with
  | none => (h2, .error .schemaError)
  | some di =>
    if (href h2 r1).headers.Nodup then
      let h3 := h2.set r1 ((href h2 r1).mapColAt di to_datetime_cell)
      let h4 := h3.set r1 (coerceNonDate (href h3 r1))
      let df3 := href h4 r1
      let kept := df3.cells.filter (fun rr => !(cellAt rr di).isna)
      (h4 ++ [{ df3 with cells := sortValuesDate kept di }], .ok h4.length)
    else (h2, .error .duplicateLabels)

/-- Heap rendering of `filter_period`: `if df.empty: return df` hands back
the input object itself; the nonempty path builds the `.loc[...]` frame,
which is allocated fresh; nothing is ever written to an existing frame. -/
def filter_period_heap (h : Heap) (r : Nat) (period_key : String) :
    Heap × Except PyErr Nat :=
  let df := href h r
  if df.cells.isEmpty then (h, .ok r)
  else
    match filter_period df period_key with
    | .ok res => (h ++ [res], .ok h.length)
    | .error e => (h, .error e)

/-- Column loop of the heap rendering of `normalize_from_first`: each
`out[c] = ...` mutates the output frame (reference `rOut`) in place. -/
def normColumns (df : DynTable) (rOut : Nat) :
    List String → Heap → Heap × Except PyErr Nat
  | [], h => (h, .ok rOut)
  | c :: cs, h =>
    match df.colIdx? c with
    | none => (h, .error (.keyError c))
    | some i =>
      let col := df.colAt i
      match (col.filter (fun v => !v.isna)).head? with
      | none => normColumns df rOut cs
          (h.set rOut ((href h rOut).upsertCol c (List.replicate df.nrows PyVal.vnull)))
      | some (.vnum base) => normColumns df rOut cs
          (h.set rOut ((href h rOut).upsertCol c (col.map (rebase_cell base))))
      | some _ => (h, .error .typeError)

/-- Heap rendering of `normalize_from_first`:
`out = df[["Date"]].copy()` allocates the output frame, then the column
loop mutates only that frame. -/
def normalize_from_first_heap (h : Heap) (r : Nat) (cols : List String) :
    Heap × Except PyErr Nat :=
  let df := href h r
  match df.colIdx? ("Date") with
  | none => (h, .error (.keyError ("Date")))
  | some di =>
    let out0 : DynTable :=
      { headers := [("Date")], cells := df.cells.map (fun rr => [cellAt rr di]) }
    normColumns df h.length cols (h ++ [out0])

/-- Filter-then-rebase step of the app
(`dff = filter_period(df, period); dfn = normalize_from_first(dff, picked)`),
on the heap. -/
def run_pipeline (h : Heap) (r : Nat) (period_key : String)
    (cols : List String) : Heap × Except PyErr Nat :=
  match filter_period_heap h r period_key with
  | (h1, .ok rf) => normalize_from_first_heap h1 rf cols
  | (h1, .error e) => (h1, .error e)

/-- Frame denoted by the outcome of a heap computation (the returned
object, or the propagated error). -/
def runFrame (p : Heap × Except PyErr Nat) : Except PyErr DynTable :=
  match p with
  | (h, .ok i) => .ok (href h i)
  | (_, .error e) => .error e

/-- Lexicographic strict order on index positions: first by key, then by
original position.  An argsort result that is `Pairwise (lexlt f)` is
sorted by key and keeps the original relative order of equal keys, i.e. it
is stable. -/
def lexlt (f : Nat → Nat) (i j : Nat) : Prop :=
  f i < f j ∨ (f i = f j ∧ i < j)

/-- Row-level description of the Tidier, in the spec's terms: parse the
`Date` cell day-first (an unparseable date drops the whole row); every
other cell is numerically coerced, an unparseable cell becoming na. -/
def tidyRowSpec (ncols di : Nat) (r : List PyVal) : Option (List PyVal) :=
  match (to_datetime_cell (cellAt r di)).toDate with
  | none => none
  | some d => some ((List.range ncols).map (fun i =>
      if i = di then PyVal.vdate d else coerce_cell (cellAt r i)))

/-- The kept and processed rows of a raw table, in the spec's terms. -/
def tidyKeptRows (df0 : DynTable) : List (List PyVal) :=
  df0.cells.filterMap
    (tidyRowSpec df0.headers.length
      (((df0.headers.map pyStrip).findIdx? (· == ("Date"))).getD 0))

/-- Rectangular frame: every row has one cell per header, as every pandas
frame does. -/
def RectT (df : DynTable) : Prop :=
  ∀ r ∈ df.cells, r.length = df.headers.length

/-- Cells a float column may hold: floats, `NaN` and missing values. -/
def PyVal.isNumLike : PyVal → Bool
  | vnum _ => true
  | vnan => true
  | vnull => true
  | _ => false

/-- The output column `normalize_from_first` computes for the column at
position `i`: all-`pd.NA` when the column has no non-na cell, otherwise
the rebased column against the first non-na cell (a float `base`). -/
def expectedNormCol (df : DynTable) (i : Nat) : List PyVal :=
  match ((df.colAt i).filter (fun v => !v.isna)).head? with
  | none => List.replicate df.nrows PyVal.vnull
  | some (.vnum base) => (df.colAt i).map (rebase_cell base)
  | some _ => []

/-! ### Concrete frames used as witnesses and counterexamples -/

/-- One-row tidy frame with a single series column `A`. -/
def tblOneRow : DynTable :=
  ⟨[("Date"), ("A")], [[PyVal.vdate ⟨2024, 1, 1⟩, PyVal.vnum 1]]⟩

/-- Tidy frame whose series column `B` is entirely null. -/
def tblAllNull : DynTable :=
  ⟨[("Date"), ("B")],
    [[PyVal.vdate ⟨2024, 1, 1⟩, PyVal.vnull],
     [PyVal.vdate ⟨2024, 1, 2⟩, PyVal.vnull]]⟩

/-- Raw frame with 17 rows sharing one date, each row carrying a distinct
value in column `V`; 17 rows push `sort_values` into its partitioning
path. -/
def tblTies17 : DynTable :=
  ⟨[("Date"), ("V")],
    [[PyVal.vstr ("1/1/2024"), PyVal.vnum 1],
     [PyVal.vstr ("1/1/2024"), PyVal.vnum 2],
     [PyVal.vstr ("1/1/2024"), PyVal.vnum 3],
     [PyVal.vstr ("1/1/2024"), PyVal.vnum 4],
     [PyVal.vstr ("1/1/2024"), PyVal.vnum 5],
     [PyVal.vstr ("1/1/2024"), PyVal.vnum 6],
     [PyVal.vstr ("1/1/2024"), PyVal.vnum 7],
     [PyVal.vstr ("1/1/2024"), PyVal.vnum 8],
     [PyVal.vstr ("1/1/2024"), PyVal.vnum 9],
     [PyVal.vstr ("1/1/2024"), PyVal.vnum 10],
     [PyVal.vstr ("1/1/2024"), PyVal.vnum 11],
     [PyVal.vstr ("1/1/2024"), PyVal.vnum 12],
     [PyVal.vstr ("1/1/2024"), PyVal.vnum 13],
     [PyVal.vstr ("1/1/2024"), PyVal.vnum 14],
     [PyVal.vstr ("1/1/2024"), PyVal.vnum 15],
     [PyVal.vstr ("1/1/2024"), PyVal.vnum 16],
     [PyVal.vstr ("1/1/2024"), PyVal.vnum 17]]⟩

/-- Raw frame with three rows, two of them sharing a date, given out of
order. -/
def tblTies3 : DynTable :=
  ⟨[("Date"), ("V")],
    [[PyVal.vstr ("2/1/2024"), PyVal.vnum 1],
     [PyVal.vstr ("1/1/2024"), PyVal.vnum 2],
     [PyVal.vstr ("1/1/2024"), PyVal.vnum 3]]⟩

/-- Tidy frame with series column `A` holding 100, 110, 90 — the spec's
rebasing example. -/
def tblRebase : DynTable :=
  ⟨[("Date"), ("A")],
    [[PyVal.vdate ⟨2024, 1, 1⟩, PyVal.vnum 100],
     [PyVal.vdate ⟨2024, 1, 2⟩, PyVal.vnum 110],
     [PyVal.vdate ⟨2024, 1, 3⟩, PyVal.vnum 90]]⟩

/-- Tidy frame spanning two years, for window filtering. -/
def tblWindow : DynTable :=
  ⟨[("Date"), ("A")],
    [[PyVal.vdate ⟨2023, 11, 30⟩, PyVal.vnum 1],
     [PyVal.vdate ⟨2024, 1, 2⟩, PyVal.vnum 2],
     [PyVal.vdate ⟨2024, 3, 15⟩, PyVal.vnum 3],
     [PyVal.vdate ⟨2024, 6, 15⟩, PyVal.vnum 4]]⟩

/-- Raw frame whose `Date` header carries whitespace. -/
def tblPadded : DynTable :=
  ⟨[(" Date "), ("A")], [[PyVal.vstr ("1/1/2024"), PyVal.vstr ("7")]]⟩

/-- Raw frame without any `Date` header. -/
def tblNoDate : DynTable :=
  ⟨[("Dato"), ("A")], [[PyVal.vstr ("1/1/2024"), PyVal.vstr ("7")]]⟩

/-- Raw frame with one unparseable date cell and one unparseable numeric
cell. -/
def tblAnomalies : DynTable :=
  ⟨[("Date"), ("A")],
    [[PyVal.vstr ("not a date"), PyVal.vstr ("1")],
     [PyVal.vstr ("2/1/2024"), PyVal.vstr ("abc")],
     [PyVal.vstr ("1/1/2024"), PyVal.vstr ("2")]]⟩

/-- Tidy frame whose series column `A` starts at the value 0 (the rebasing
base becomes 0). -/
def tblZeroBase : DynTable :=
  ⟨[("Date"), ("A")],
    [[PyVal.vdate ⟨2024, 1, 1⟩, PyVal.vnum 0],
     [PyVal.vdate ⟨2024, 1, 2⟩, PyVal.vnum 5],
     [PyVal.vdate ⟨2024, 1, 3⟩, PyVal.vnull]]⟩

/-- Tidy frame with no rows at all. -/
def tblEmpty : DynTable := ⟨[("Date"), ("A")], []⟩

/-! ### Permutation facts about the argsort -/

theorem getD_set_perm (t : List Nat) (m a : Nat) (h : m < t.length) :
    List.Perm (lget t m :: t.set m a) (a :: t) := by
  induction t generalizing m with
  | nil => simp at h
  | cons b tl ih =>
    cases m with
    | zero => exact List.Perm.swap a b tl
    | succ k =>
      have hk : k < tl.length := by simpa using h
      have e1 : lget (b :: tl) (k + 1) :: (b :: tl).set (k + 1) a
          = lget tl k :: b :: tl.set k a := rfl
      rw [e1]
      exact (List.Perm.swap b (lget tl k) _).trans
        (((ih k hk).cons b).trans (List.Perm.swap a b tl))

theorem swap_core_perm :
    ∀ (t : List Nat) (i j : Nat), i < t.length → j < t.length →
      List.Perm ((t.set i (lget t j)).set j (lget t i)) t
  | [], i, _, hi, _ => by simp at hi
  | b :: tl, 0, 0, _, _ => by simp [lget]
  | b :: tl, 0, j + 1, _, hj => by
    have hj2 : j < tl.length := by simpa using hj
    exact getD_set_perm tl j b hj2
  | b :: tl, i + 1, 0, hi, _ => by
    have hi2 : i < tl.length := by simpa using hi
    exact getD_set_perm tl i b hi2
  | b :: tl, i + 1, j + 1, hi, hj => by
    have hi2 : i < tl.length := by simpa using hi
    have hj2 : j < tl.length := by simpa using hj
    exact (swap_core_perm tl i j hi2 hj2).cons b

theorem swapD_perm (t : List Nat) (i j : Nat) : List.Perm (swapD t i j) t := by
  unfold swapD
  split
  · next h => exact swap_core_perm t i j h.1 h.2
  · exact List.Perm.refl t

theorem swapD_length (t : List Nat) (i j : Nat) :
    (swapD t i j).length = t.length :=
  (swapD_perm t i j).length_eq

theorem ains_perm (klt : Nat → Nat → Bool) (i : Nat) :
    ∀ l : List Nat, List.Perm (ains klt i l) (i :: l)
  | [] => List.Perm.refl _
  | j :: js => by
    unfold ains
    split
    · exact List.Perm.refl _
    · exact ((ains_perm klt i js).cons j).trans (List.Perm.swap i j js)

theorem foldl_ains_perm (klt : Nat → Nat → Bool) :
    ∀ (l acc : List Nat),
      List.Perm (l.foldl (fun acc i => ains klt i acc) acc) (l ++ acc)
  | [], _ => List.Perm.refl _
  | i :: l, acc => by
    simp only [List.foldl_cons, List.cons_append]
    exact ((foldl_ains_perm klt l (ains klt i acc)).trans
      (List.Perm.append_left l (ains_perm klt i acc))).trans
      List.perm_middle

theorem ainsSort_perm (klt : Nat → Nat → Bool) (l : List Nat) :
    List.Perm (ainsSort klt l) l := by
  simpa using foldl_ains_perm klt l []

theorem insertSeg_perm (klt : Nat → Nat → Bool) (t : List Nat) (pl pr : Nat) :
    List.Perm (insertSeg klt t pl pr) t := by
  unfold insertSeg
  split
  · next h =>
    have hsplit : (t.drop pl).take (pr + 1 - pl) ++ t.drop (pr + 1) = t.drop pl := by
      conv_rhs => rw [← List.take_append_drop (pr + 1 - pl) (t.drop pl)]
      rw [List.drop_drop, Nat.add_sub_cancel' h]
    rw [List.append_assoc]
    have hperm := List.Perm.append_left (t.take pl)
      (List.Perm.append_right (t.drop (pr + 1)) (ainsSort_perm klt ((t.drop pl).take (pr + 1 - pl))))
    rw [hsplit, List.take_append_drop] at hperm
    exact hperm
  · exact List.Perm.refl t

theorem partLoop_perm (klt : Nat → Nat → Bool) :
    ∀ (fuel : Nat) (t : List Nat) (vp pi pj : Nat),
      List.Perm (partLoop klt fuel t vp pi pj).1 t
  | 0, _, _, _, _ => List.Perm.refl _
  | fuel + 1, t, vp, pi, pj => by
    unfold partLoop
    dsimp only
    split
    · exact List.Perm.refl _
    · exact (partLoop_perm klt fuel _ _ _ _).trans (swapD_perm t _ _)

theorem ifSwap_perm (klt : Nat → Nat → Bool) {u t : List Nat}
    (hu : List.Perm u t) (a b c d : Nat) :
    List.Perm (if klt (lget u a) (lget u b) then swapD u c d else u) t := by
  split
  · exact (swapD_perm u c d).trans hu
  · exact hu

theorem partStep_perm (klt : Nat → Nat → Bool) (t : List Nat) (pl pr : Nat) :
    List.Perm (partStep klt t pl pr).1 t := by
  unfold partStep
  dsimp only
  exact (swapD_perm _ _ _).trans ((partLoop_perm klt _ _ _ _ _).trans
    ((swapD_perm _ _ _).trans (ifSwap_perm klt
      (ifSwap_perm klt (ifSwap_perm klt (List.Perm.refl t) _ _ _ _) _ _ _ _) _ _ _ _)))

theorem siftDown_perm (klt : Nat → Nat → Bool) :
    ∀ (fuel : Nat) (t : List Nat) (pl n i : Nat),
      List.Perm (siftDown klt fuel t pl n i) t
  | 0, _, _, _, _ => List.Perm.refl _
  | fuel + 1, t, pl, n, i => by
    unfold siftDown
    dsimp only
    split
    · split <;> split <;>
        first
          | exact (siftDown_perm klt fuel _ _ _ _).trans (swapD_perm t _ _)
          | exact List.Perm.refl _
    · exact List.Perm.refl _

theorem foldl_perm_invariant {β : Type} (f : List Nat → β → List Nat)
    (hf : ∀ t x, List.Perm (f t x) t) :
    ∀ (l : List β) (t : List Nat), List.Perm (l.foldl f t) t
  | [], _ => List.Perm.refl _
  | x :: l, t =>
    (foldl_perm_invariant f hf l (f t x)).trans (hf t x)

theorem aheapsort_perm (klt : Nat → Nat → Bool) (t : List Nat) (pl n : Nat) :
    List.Perm (aheapsort klt t pl n) t := by
  unfold aheapsort
  refine (foldl_perm_invariant _ ?_ _ _).trans (foldl_perm_invariant _ ?_ _ _)
  · intro t r
    exact (siftDown_perm klt _ _ _ _ _).trans (swapD_perm t _ _)
  · intro t r
    exact siftDown_perm klt _ _ _ _ _

theorem aqsLoop_perm (klt : Nat → Nat → Bool) :
    ∀ (fuel : Nat) (t : List Nat) (pl pr : Nat) (cdepth : Int)
      (stack : List (Nat × Nat × Int)),
      List.Perm (aqsLoop klt fuel t pl pr cdepth stack) t
  | 0, _, _, _, _, _ => List.Perm.refl _
  | fuel + 1, t, pl, pr, cdepth, stack => by
    unfold aqsLoop
    dsimp only
    split
    · split
      · split
        · exact aheapsort_perm klt t pl _
        · exact (aqsLoop_perm klt fuel _ _ _ _ _).trans (aheapsort_perm klt t pl _)
      · split
        · exact (aqsLoop_perm klt fuel _ _ _ _ _).trans (partStep_perm klt t pl pr)
        · exact (aqsLoop_perm klt fuel _ _ _ _ _).trans (partStep_perm klt t pl pr)
    · split
      · exact insertSeg_perm klt t pl pr
      · exact (aqsLoop_perm klt fuel _ _ _ _ _).trans (insertSeg_perm klt t pl pr)

theorem aquicksortArg_perm (keys : List Nat) :
    List.Perm (aquicksortArg keys) (List.range keys.length) := by
  unfold aquicksortArg
  dsimp only
  split
  · next h => simp [h]
  · exact aqsLoop_perm _ _ _ _ _ _ _

theorem filterMap_get_range {α : Type} (rows : List α) :
    (List.range rows.length).filterMap (fun i => rows.get? i) = rows := by
  induction rows with
  | nil => rfl
  | cons a rs ih =>
    rw [List.length_cons, List.range_succ_eq_map]
    simp only [List.filterMap_cons, List.get?_cons_zero, List.filterMap_map]
    have : (fun i => (a :: rs).get? (i + 1)) = fun i => rs.get? i := rfl
    simpa [Function.comp_def, this] using ih

theorem gather_perm {α : Type} (rows : List α) (idx : List Nat)
    (hidx : List.Perm idx (List.range rows.length)) :
    List.Perm (idx.filterMap (fun i => rows.get? i)) rows := by
  refine (hidx.filterMap _).trans ?_
  rw [filterMap_get_range]

/-- `sort_values` only permutes the rows: every row (duplicates included)
survives with its multiplicity. -/
theorem sortValuesDate_perm (rows : List (List PyVal)) (di : Nat) :
    List.Perm (sortValuesDate rows di) rows := by
  unfold sortValuesDate
  refine gather_perm rows _ ?_
  have := aquicksortArg_perm (rows.map (rowDateKey di))
  simpa using this

/-! ### Stability of the insertion-sort path (slices of at most 16 rows) -/

theorem mem_ains (klt : Nat → Nat → Bool) (i x : Nat) :
    ∀ l : List Nat, x ∈ ains klt i l ↔ x = i ∨ x ∈ l
  | [] => by simp [ains]
  | j :: js => by
    unfold ains
    split
    · simp only [List.mem_cons]
    · simp only [List.mem_cons, mem_ains klt i x js]
      tauto

theorem ains_pairwise_lex (f : Nat → Nat) (i : Nat) :
    ∀ acc : List Nat, acc.Pairwise (lexlt f) → (∀ a ∈ acc, a < i) →
      (ains (fun a b => Nat.blt (f a) (f b)) i acc).Pairwise (lexlt f)
  | [], _, _ => by simp [ains]
  | j :: js, hacc, hlt => by
    rw [List.pairwise_cons] at hacc
    unfold ains
    split
    · next hij =>
      have hij2 : f i < f j := by simpa [Nat.blt_eq] using hij
      refine List.pairwise_cons.2 ⟨?_, List.pairwise_cons.2 ⟨hacc.1, hacc.2⟩⟩
      intro x hx
      rcases List.mem_cons.1 hx with rfl | hx2
      · exact Or.inl hij2
      · rcases hacc.1 x hx2 with h | ⟨heq, _⟩
        · exact Or.inl (Nat.lt_of_lt_of_le hij2 (Nat.le_of_lt h))
        · exact Or.inl (heq ▸ hij2)
    · next hij =>
      have hij2 : ¬ f i < f j := by simpa [Nat.blt_eq] using hij
      refine List.pairwise_cons.2 ⟨?_, ?_⟩
      · intro x hx
        rcases (mem_ains _ i x js).1 hx with hxi | hx2
        · subst hxi
          rcases Nat.lt_or_ge (f j) (f x) with h | h
          · exact Or.inl h
          · exact Or.inr ⟨Nat.le_antisymm (Nat.le_of_not_lt hij2) h,
              hlt j (List.mem_cons_self j js)⟩
        · exact hacc.1 x hx2
      · exact ains_pairwise_lex f i js hacc.2
          (fun a ha => hlt a (List.mem_cons_of_mem j ha))

theorem foldl_ains_pairwise_lex (f : Nat → Nat) :
    ∀ (l acc : List Nat), l.Pairwise (· < ·) → acc.Pairwise (lexlt f) →
      (∀ a ∈ acc, ∀ x ∈ l, a < x) →
      (l.foldl (fun acc i => ains (fun a b => Nat.blt (f a) (f b)) i acc) acc).Pairwise
        (lexlt f)
  | [], acc, _, hacc, _ => hacc
  | i :: l, acc, hl, hacc, hmix => by
    rw [List.pairwise_cons] at hl
    simp only [List.foldl_cons]
    refine foldl_ains_pairwise_lex f l _ hl.2 ?_ ?_
    · exact ains_pairwise_lex f i acc hacc
        (fun a ha => hmix a ha i (List.mem_cons_self i l))
    · intro a ha x hx
      rcases (mem_ains _ i a acc).1 ha with rfl | ha2
      · exact hl.1 x hx
      · exact hmix a ha2 x (List.mem_cons_of_mem i hx)

theorem ainsSort_pairwise_lex (f : Nat → Nat) (n : Nat) :
    (ainsSort (fun a b => Nat.blt (f a) (f b)) (List.range n)).Pairwise (lexlt f) :=
  foldl_ains_pairwise_lex f (List.range n) [] (List.pairwise_lt_range n)
    (List.Pairwise.nil) (by intro a ha; simp at ha)

/-- On at most 16 keys the partitioning loop is never entered and the
argsort is exactly one stable insertion sort of the whole index range. -/
theorem aquicksortArg_small (keys : List Nat) (h1 : 1 ≤ keys.length)
    (h16 : keys.length ≤ 16) :
    aquicksortArg keys
      = ainsSort (fun i j => Nat.blt (keys.getD i 0) (keys.getD j 0))
          (List.range keys.length) := by
  unfold aquicksortArg
  dsimp only
  rw [if_neg (by omega)]
  have hfuel : 2 * keys.length + 8 = (2 * keys.length + 7) + 1 := rfl
  rw [hfuel]
  unfold aqsLoop
  dsimp only
  rw [if_neg (by simp [SMALL_QUICKSORT]; omega)]
  unfold insertSeg
  rw [if_pos (by omega)]
  have hl1 : keys.length - 1 + 1 = keys.length := by omega
  rw [hl1]
  simp [List.take_of_length_le, List.drop_eq_nil_of_le, List.length_range]

/-- The stable argsort of the small path is `Pairwise`-sorted by key with
ties in original position order. -/
theorem aquicksortArg_small_pairwise (keys : List Nat) (h1 : 1 ≤ keys.length)
    (h16 : keys.length ≤ 16) :
    (aquicksortArg keys).Pairwise (lexlt (fun i => keys.getD i 0)) := by
  rw [aquicksortArg_small keys h1 h16]
  exact ainsSort_pairwise_lex (fun i => keys.getD i 0) keys.length

/-! ### Structure of `tidy_df` -/

theorem to_datetime_cell_cases (v : PyVal) :
    (∃ d, to_datetime_cell v = .vdate d) ∨ to_datetime_cell v = .vnull := by
  cases v <;> simp [to_datetime_cell]
  next s => cases parse_date s <;> simp

theorem header_is_date_iff (stripped : List String) (di : Nat)
    (hnodup : stripped.Nodup)
    (hdi : stripped.findIdx? (· == ("Date")) = some di)
    (i : Nat) (hi : i < stripped.length) :
    (stripped.getD i ("") == ("Date")) = true ↔ i = di := by
  obtain ⟨hlt, hp, -⟩ := List.findIdx?_eq_some_iff_getElem.1 hdi
  constructor
  · intro h
    rw [List.getD_eq_getElem?_getD, List.getElem?_eq_getElem hi] at h
    simp only [Option.getD_some, beq_iff_eq] at h
    have hpd : stripped[di] = ("Date") := by simpa [beq_iff_eq] using hp
    exact (hnodup.getElem_inj_iff).1 (by rw [h, hpd])
  · intro h
    subst h
    rw [List.getD_eq_getElem?_getD, List.getElem?_eq_getElem hlt]
    simpa using hp

theorem filter_map_eq_filterMap {α β : Type} (g : α → β) (p : β → Bool)
    (spec : α → Option β) :
    ∀ l : List α, (∀ r ∈ l, spec r = if p (g r) then some (g r) else none) →
      (l.map g).filter p = l.filterMap spec
  | [], _ => rfl
  | a :: l, hspec => by
    have ih := filter_map_eq_filterMap g p spec l
      (fun r hr => hspec r (List.mem_cons_of_mem a hr))
    simp only [List.map_cons, List.filter_cons, List.filterMap_cons,
      hspec a (List.mem_cons_self a l)]
    by_cases h : p (g a) = true
    · simp [h, ih]
    · have h2 : p (g a) = false := by simpa using h
      simp [h2, ih]

/-- Full computation of the success case of `tidy_df`: with a `Date`
column (after stripping) and distinct labels, the result has the stripped
headers, and its rows are the quicksort of the kept, processed rows. -/
theorem tidy_df_ok (df0 : DynTable) (di : Nat)
    (hdi : (df0.headers.map pyStrip).findIdx? (· == ("Date")) = some di)
    (hnodup : (df0.headers.map pyStrip).Nodup)
    (hrect : ∀ r ∈ df0.cells, r.length = df0.headers.length) :
    tidy_df df0 = .ok
      { headers := df0.headers.map pyStrip,
        cells := sortValuesDate
          (df0.cells.filterMap (tidyRowSpec df0.headers.length di)) di } := by
  have hN : (df0.headers.map pyStrip).length = df0.headers.length :=
    List.length_map _ _
  obtain ⟨hlt, hp, -⟩ := List.findIdx?_eq_some_iff_getElem.1 hdi
  unfold tidy_df
  dsimp only
  rw [show ({ headers := df0.headers.map pyStrip, cells := df0.cells } :
        DynTable).colIdx? ("Date") = some di from hdi]
  dsimp only
  rw [if_pos hnodup]
  unfold DynTable.mapColAt coerceNonDate
  dsimp only
  rw [List.map_map]
  congr 1
  congr 1
  congr 1
  refine filter_map_eq_filterMap _ _ _ df0.cells ?_
  intro r hr
  dsimp only [Function.comp]
  have hrlen : r.length = df0.headers.length := hrect r hr
  have hdir : di < r.length := by rw [hrlen]; omega
  -- the processed row, with the header test resolved positionally
  have hrow : (List.range (df0.headers.map pyStrip).length).map (fun i =>
      if (df0.headers.map pyStrip).getD i ("") == ("Date") then
        cellAt (r.set di (to_datetime_cell (cellAt r di))) i
      else coerce_cell (cellAt (r.set di (to_datetime_cell (cellAt r di))) i))
      = (List.range df0.headers.length).map (fun i =>
        if i = di then to_datetime_cell (cellAt r di)
        else coerce_cell (cellAt r i)) := by
    rw [hN]
    refine List.map_congr_left ?_
    intro i hi
    have hiN : i < df0.headers.length := List.mem_range.1 hi
    by_cases hid : i = di
    · rw [hid]
      rw [if_pos ((header_is_date_iff _ di hnodup hdi di (by omega)).2 rfl)]
      rw [if_pos rfl]
      unfold cellAt
      simp [List.getD_eq_getElem?_getD, List.getElem?_set_self hdir]
    · rw [if_neg (by
        intro hcon
        exact hid ((header_is_date_iff _ di hnodup hdi i (by omega)).1 hcon))]
      rw [if_neg hid]
      unfold cellAt
      simp [List.getD_eq_getElem?_getD, List.getElem?_set_ne (Ne.symm hid)]
  rw [hrow]
  -- resolve the na test on the Date cell and match against `tidyRowSpec`
  have hdate : cellAt ((List.range df0.headers.length).map (fun i =>
      if i = di then to_datetime_cell (cellAt r di)
      else coerce_cell (cellAt r i))) di = to_datetime_cell (cellAt r di) := by
    unfold cellAt
    have hdiN : di < df0.headers.length := by omega
    simp [List.getD_eq_getElem?_getD, List.getElem?_map,
      List.getElem?_range hdiN]
  unfold tidyRowSpec
  rw [hdate]
  rcases to_datetime_cell_cases (cellAt r di) with ⟨d, hd⟩ | hd
  · rw [hd]
    dsimp only [PyVal.toDate, PyVal.isna]
    simp
  · rw [hd]
    dsimp only [PyVal.toDate, PyVal.isna]
    simp

theorem date_findIdx_none_iff (l : List String) :
    l.findIdx? (· == ("Date")) = none ↔ ("Date") ∉ l := by
  rw [List.findIdx?_eq_none_iff]
  constructor
  · intro h hmem
    simpa using h _ hmem
  · intro h x hx
    by_cases hxd : x = ("Date")
    · exact absurd (hxd ▸ hx) h
    · simpa using hxd

/-- The explicit `ValueError` of `tidy_df` is raised exactly when the
stripped headers contain no `Date` column. -/
theorem tidy_df_schemaError_iff (df0 : DynTable) :
    tidy_df df0 = .error .schemaError ↔ ("Date") ∉ df0.headers.map pyStrip := by
  unfold tidy_df DynTable.colIdx?
  dsimp only
  cases h : (df0.headers.map pyStrip).findIdx? (· == ("Date")) with
  | none =>
    simp only [h]
    simpa using (date_findIdx_none_iff _).1 h
  | some di =>
    obtain ⟨hlt, hp, -⟩ := List.findIdx?_eq_some_iff_getElem.1 h
    have hmem : ("Date") ∈ df0.headers.map pyStrip := by
      have hpd : (df0.headers.map pyStrip)[di] = ("Date") := by simpa using hp
      exact hpd ▸ List.getElem_mem hlt
    simp only [h]
    constructor
    · intro hcon
      split at hcon <;> simp_all
    · intro hcon
      exact absurd hmem hcon

/-- `tidy_df` succeeds exactly when the stripped headers contain `Date`
and are duplicate-free; in particular success and failure depend only on
the headers, never on cell contents. -/
theorem tidy_df_isOk_iff (df0 : DynTable) :
    (∃ t, tidy_df df0 = .ok t) ↔
      (("Date") ∈ df0.headers.map pyStrip ∧ (df0.headers.map pyStrip).Nodup) := by
  unfold tidy_df DynTable.colIdx?
  dsimp only
  cases h : (df0.headers.map pyStrip).findIdx? (· == ("Date")) with
  | none =>
    simp only [h]
    constructor
    · rintro ⟨t, hcon⟩
      cases hcon
    · rintro ⟨hmem, -⟩
      exact absurd h (by simpa [date_findIdx_none_iff] using hmem)
  | some di =>
    obtain ⟨hlt, hp, -⟩ := List.findIdx?_eq_some_iff_getElem.1 h
    have hmem : ("Date") ∈ df0.headers.map pyStrip := by
      have : (df0.headers.map pyStrip)[di] = ("Date") := by simpa using hp
      exact this ▸ List.getElem_mem hlt
    simp only [h]
    constructor
    · rintro ⟨t, hcon⟩
      split at hcon
      · exact ⟨hmem, by assumption⟩
      · cases hcon
    · rintro ⟨-, hnodup⟩
      rw [if_pos hnodup]
      exact ⟨_, rfl⟩

theorem keys_getD (rows : List (List PyVal)) (di i : Nat) :
    (rows.map (rowDateKey di)).getD i 0 = rowDateKey di (rows.getD i []) := by
  rcases Nat.lt_or_ge i rows.length with h | h
  · simp [List.getD_eq_getElem?_getD, List.getElem?_eq_getElem h,
      List.getElem?_map]
  · rw [List.getD_eq_getElem?_getD, List.getD_eq_getElem?_getD,
      List.getElem?_eq_none (by simpa using h), List.getElem?_eq_none h]
    simp [rowDateKey, cellAt, PyVal.toDate, Date.key]

/-- On at most 16 rows, `sort_values` gathers the rows along an index list
that is a permutation of the positions, sorted by date key with ties in
original position order: the sort is stable there. -/
theorem sortValuesDate_small (rows : List (List PyVal)) (di : Nat)
    (h16 : rows.length ≤ 16) :
    ∃ idx : List Nat,
      List.Perm idx (List.range rows.length) ∧
      idx.Pairwise (lexlt (fun i => rowDateKey di (rows.getD i []))) ∧
      sortValuesDate rows di = idx.filterMap (fun i => rows.get? i) := by
  refine ⟨aquicksortArg (rows.map (rowDateKey di)), ?_, ?_, rfl⟩
  · have := aquicksortArg_perm (rows.map (rowDateKey di))
    simpa using this
  · rcases Nat.eq_zero_or_pos rows.length with h0 | h1
    · have : rows.map (rowDateKey di) = [] := by
        simpa using List.eq_nil_of_length_eq_zero h0
      rw [this]
      simp [aquicksortArg]
    · have hpw := aquicksortArg_small_pairwise (rows.map (rowDateKey di))
        (by simpa using h1) (by simpa using h16)
      have hf : (fun i => (rows.map (rowDateKey di)).getD i 0)
          = fun i => rowDateKey di (rows.getD i []) :=
        funext (fun i => keys_getD rows di i)
      rwa [hf] at hpw

/-! ### Structure of `normalize_from_first` -/

theorem zipWith_right_eq {α β : Type} :
    ∀ (l1 : List α) (l2 : List β), l2.length ≤ l1.length →
      List.zipWith (fun _ v => v) l1 l2 = l2
  | _, [], _ => by simp
  | [], _ :: _, h => by simp at h
  | a :: l1, b :: l2, h => by
    simp only [List.zipWith_cons_cons]
    rw [zipWith_right_eq l1 l2 (by simpa using h)]

theorem zipWith_left_map {α β γ : Type} (g : α → γ) :
    ∀ (l1 : List α) (l2 : List β), l1.length ≤ l2.length →
      List.zipWith (fun r (_ : β) => g r) l1 l2 = l1.map g
  | [], _, _ => by simp
  | _ :: _, [], h => by simp at h
  | a :: l1, b :: l2, h => by
    simp only [List.zipWith_cons_cons, List.map_cons]
    rw [zipWith_left_map g l1 l2 (by simpa using h)]

theorem zipWith_congr_mem {α β γ : Type} (f g : α → β → γ) :
    ∀ (l1 : List α) (l2 : List β), (∀ a ∈ l1, ∀ b ∈ l2, f a b = g a b) →
      List.zipWith f l1 l2 = List.zipWith g l1 l2
  | [], l2, _ => by simp
  | _ :: _, [], _ => by simp
  | a :: l1, b :: l2, h => by
    simp only [List.zipWith_cons_cons]
    rw [h a (List.mem_cons_self a l1) b (List.mem_cons_self b l2),
      zipWith_congr_mem f g l1 l2
        (fun x hx y hy => h x (List.mem_cons_of_mem a hx) y (List.mem_cons_of_mem b hy))]

theorem mem_zipWith {α β γ : Type} {f : α → β → γ} :
    ∀ {l1 : List α} {l2 : List β} {x : γ}, x ∈ List.zipWith f l1 l2 →
      ∃ a ∈ l1, ∃ b ∈ l2, x = f a b
  | [], _, _, h => by simp at h
  | _ :: _, [], _, h => by simp at h
  | a :: l1, b :: l2, x, h => by
    simp only [List.zipWith_cons_cons, List.mem_cons] at h
    rcases h with h | h
    · exact ⟨a, List.mem_cons_self a l1, b, List.mem_cons_self b l2, h⟩
    · obtain ⟨a2, ha, b2, hb, hx⟩ := mem_zipWith h
      exact ⟨a2, List.mem_cons_of_mem a ha, b2, List.mem_cons_of_mem b hb, hx⟩

theorem upsertCol_nrows (out : DynTable) (c : String) (vals : List PyVal)
    (hlen : vals.length = out.nrows) :
    (out.upsertCol c vals).nrows = out.nrows := by
  unfold DynTable.upsertCol
  cases h : out.colIdx? c <;>
    simp [DynTable.nrows, List.length_zipWith, hlen]

theorem upsertCol_rect (out : DynTable) (c : String) (vals : List PyVal)
    (hrect : RectT out) : RectT (out.upsertCol c vals) := by
  unfold DynTable.upsertCol
  cases h : out.colIdx? c with
  | some i =>
    intro r hr
    obtain ⟨a, ha, b, -, hx⟩ := mem_zipWith hr
    simp [hx, hrect a ha]
  | none =>
    intro r hr
    obtain ⟨a, ha, b, -, hx⟩ := mem_zipWith hr
    simp [hx, hrect a ha]

theorem upsertCol_col_self (out : DynTable) (c : String) (vals : List PyVal)
    (hrect : RectT out) (hlen : vals.length = out.nrows) :
    (out.upsertCol c vals).col? c = some vals := by
  have hlen2 : vals.length = out.cells.length := hlen
  unfold DynTable.upsertCol
  cases h : out.colIdx? c with
  | some i =>
    unfold DynTable.colIdx? at h
    obtain ⟨hlt, -, -⟩ := List.findIdx?_eq_some_iff_getElem.1 h
    unfold DynTable.col? DynTable.colIdx? DynTable.colAt
    dsimp only
    rw [h]
    simp only [Option.map_some']
    congr 1
    rw [List.map_zipWith,
      zipWith_congr_mem _ (fun _ v => v) out.cells vals (by
        intro a ha b _
        have hai : i < a.length := by rw [hrect a ha]; exact hlt
        unfold cellAt
        simp [List.getD_eq_getElem?_getD, List.getElem?_set_self hai]),
      zipWith_right_eq out.cells vals (by omega)]
  | none =>
    unfold DynTable.colIdx? at h
    unfold DynTable.col? DynTable.colIdx? DynTable.colAt
    dsimp only
    rw [List.findIdx?_append, h]
    have hc : (([c] : List String).findIdx? (· == c)) = some 0 := by simp
    rw [hc]
    simp only [Option.map_some', Option.none_or, Nat.zero_add]
    congr 1
    rw [List.map_zipWith,
      zipWith_congr_mem _ (fun _ v => v) out.cells vals (by
        intro a ha b _
        unfold cellAt
        rw [List.getD_eq_getElem?_getD, ← hrect a ha,
          List.getElem?_concat_length]
        rfl),
      zipWith_right_eq out.cells vals (by omega)]

theorem upsertCol_col_other (out : DynTable) (c c2 : String)
    (vals : List PyVal) (hne : c2 ≠ c) (hrect : RectT out)
    (hlen : vals.length = out.nrows) :
    (out.upsertCol c vals).col? c2 = out.col? c2 := by
  have hlen2 : vals.length = out.cells.length := hlen
  unfold DynTable.upsertCol
  cases h : out.colIdx? c with
  | some i =>
    unfold DynTable.colIdx? at h
    obtain ⟨hlt, hp, -⟩ := List.findIdx?_eq_some_iff_getElem.1 h
    have hpi : out.headers[i] = c := by simpa using hp
    unfold DynTable.col? DynTable.colIdx? DynTable.colAt
    dsimp only
    cases h2 : out.headers.findIdx? (· == c2) with
    | none => simp
    | some j =>
      obtain ⟨hlt2, hp2, -⟩ := List.findIdx?_eq_some_iff_getElem.1 h2
      have hpj : out.headers[j] = c2 := by simpa using hp2
      have hij : i ≠ j := by
        intro hcon
        subst hcon
        exact hne (hpj.symm.trans hpi)
      simp only [Option.map_some']
      congr 1
      rw [List.map_zipWith,
        zipWith_congr_mem _ (fun r _ => cellAt r j) out.cells vals (by
          intro a ha b _
          unfold cellAt
          simp [List.getD_eq_getElem?_getD, List.getElem?_set_ne hij]),
        zipWith_left_map (fun r => cellAt r j) out.cells vals (by omega)]
  | none =>
    unfold DynTable.colIdx? at h
    unfold DynTable.col? DynTable.colIdx? DynTable.colAt
    dsimp only
    have hc2 : (([c] : List String).findIdx? (· == c2)) = none := by
      simp only [List.findIdx?_cons, List.findIdx?_nil]
      rw [if_neg (by simpa using Ne.symm hne)]
    rw [List.findIdx?_append, hc2]
    simp only [Option.map_none', Option.or_none]
    cases h2 : out.headers.findIdx? (· == c2) with
    | none => simp
    | some j =>
      obtain ⟨hlt2, -, -⟩ := List.findIdx?_eq_some_iff_getElem.1 h2
      simp only [Option.none_or, Option.map_none', Option.map_some']
      congr 1
      rw [List.map_zipWith,
        zipWith_congr_mem _ (fun r _ => cellAt r j) out.cells vals (by
          intro a ha b _
          unfold cellAt
          dsimp only
          rw [List.getD_eq_getElem?_getD, List.getD_eq_getElem?_getD,
            List.getElem?_append_left (by rw [hrect a ha]; exact hlt2)]),
        zipWith_left_map (fun r => cellAt r j) out.cells vals (by omega)]

/-- On a float column (as every tidied series column is), the column loop
body of the Rebaser cannot fail: it writes exactly `expectedNormCol`. -/
theorem normStep_ok (df out : DynTable) (c : String) (i : Nat)
    (hc : df.colIdx? c = some i)
    (hnum : (df.colAt i).all PyVal.isNumLike = true) :
    normStep df out c = .ok (out.upsertCol c (expectedNormCol df i)) ∧
      (expectedNormCol df i).length = df.nrows := by
  unfold normStep expectedNormCol
  rw [hc]
  dsimp only
  rcases hcase : ((df.colAt i).filter (fun v => !v.isna)).head? with - | v
  · rw [hcase]
    exact ⟨rfl, by simp⟩
  · rw [hcase]
    have hvmem : v ∈ (df.colAt i).filter (fun v => !v.isna) := by
      obtain ⟨ys, hys⟩ := List.head?_eq_some_iff.1 hcase
      rw [hys]
      exact List.mem_cons_self v ys
    have hv2 := List.mem_filter.1 hvmem
    have hlike : v.isNumLike = true := List.all_eq_true.1 hnum v hv2.1
    cases v with
    | vnum base =>
      refine ⟨rfl, ?_⟩
      simp [DynTable.colAt, DynTable.nrows]
    | vstr s => simp [PyVal.isNumLike] at hlike
    | vdate d => simp [PyVal.isNumLike] at hlike
    | vinf => simp [PyVal.isNumLike] at hlike
    | vninf => simp [PyVal.isNumLike] at hlike
    | vnan => simp [PyVal.isna] at hv2
    | vnull => simp [PyVal.isna] at hv2

/-- Induction along the column loop of the Rebaser: if every selected
label denotes a float column, the loop succeeds, keeps the row count and
the rectangular shape, leaves unselected columns alone, and gives every
selected column its `expectedNormCol`. -/
theorem normColumns_spec (df : DynTable) :
    ∀ (cs : List String) (out : DynTable),
      (∀ c ∈ cs, ∃ i, df.colIdx? c = some i ∧
        (df.colAt i).all PyVal.isNumLike = true) →
      RectT out → out.nrows = df.nrows →
      ∃ res, cs.foldlM (normStep df) out = Except.ok res ∧ RectT res ∧
        res.nrows = df.nrows ∧
        (∀ c2, c2 ∉ cs → res.col? c2 = out.col? c2) ∧
        (∀ c ∈ cs, ∀ i, df.colIdx? c = some i →
          res.col? c = some (expectedNormCol df i))
  | [], out, _, hrect, hn =>
    ⟨out, rfl, hrect, hn, fun _ _ => rfl, by simp⟩
  | c :: cs, out, hcs, hrect, hn => by
    obtain ⟨i, hci, hnum⟩ := hcs c (List.mem_cons_self c cs)
    obtain ⟨hstep, hexplen⟩ := normStep_ok df out c i hci hnum
    have hlen : (expectedNormCol df i).length = out.nrows := by
      rw [hexplen, hn]
    have hrect2 : RectT (out.upsertCol c (expectedNormCol df i)) :=
      upsertCol_rect out c _ hrect
    have hn2 : (out.upsertCol c (expectedNormCol df i)).nrows = df.nrows := by
      rw [upsertCol_nrows out c _ hlen, hn]
    obtain ⟨res, hfold, hrectR, hnR, hpres, hcols⟩ :=
      normColumns_spec df cs (out.upsertCol c (expectedNormCol df i))
        (fun c2 h2 => hcs c2 (List.mem_cons_of_mem c h2)) hrect2 hn2
    refine ⟨res, ?_, hrectR, hnR, ?_, ?_⟩
    · rw [List.foldlM_cons, hstep]
      exact hfold
    · intro c2 hc2
      have hne : c2 ≠ c := fun hcon => hc2 (hcon ▸ List.mem_cons_self c cs)
      have h2 : c2 ∉ cs := fun hcon => hc2 (List.mem_cons_of_mem c hcon)
      rw [hpres c2 h2, upsertCol_col_other out c c2 _ hne hrect hlen]
    · intro c2 hc2 i2 hci2
      by_cases hmem : c2 ∈ cs
      · exact hcols c2 hmem i2 hci2
      · have hceq : c2 = c := by
          rcases List.mem_cons.1 hc2 with h | h
          · exact h
          · exact absurd h hmem
        subst hceq
        rw [hci] at hci2
        have hieq : i2 = i := (Option.some.inj hci2).symm
        subst hieq
        rw [hpres c2 hmem, upsertCol_col_self out c2 _ hrect hlen]

/-- Success and content of the Rebaser on selected float columns. -/
theorem normalize_from_first_ok (df : DynTable) (cols : List String)
    (di : Nat) (hdate : df.colIdx? ("Date") = some di)
    (hcols : ∀ c ∈ cols, ∃ i, df.colIdx? c = some i ∧
      (df.colAt i).all PyVal.isNumLike = true) :
    ∃ res, normalize_from_first df cols = .ok res ∧
      res.nrows = df.nrows ∧
      (∀ c ∈ cols, ∀ i, df.colIdx? c = some i →
        res.col? c = some (expectedNormCol df i)) := by
  unfold normalize_from_first
  rw [hdate]
  dsimp only
  have hrect0 : RectT (DynTable.mk [("Date")]
      (df.cells.map (fun r => [cellAt r di]))) := by
    intro r hr
    obtain ⟨a, -, rfl⟩ := List.mem_map.1 hr
    rfl
  obtain ⟨res, hfold, -, hnR, -, hcolsR⟩ :=
    normColumns_spec df cols _ hcols hrect0 (by simp [DynTable.nrows])
  exact ⟨res, hfold, hnR, hcolsR⟩

theorem expectedNormCol_allna (df : DynTable) (i : Nat)
    (hall : (df.colAt i).all PyVal.isna = true) :
    expectedNormCol df i = List.replicate df.nrows PyVal.vnull := by
  unfold expectedNormCol
  have hfil : (df.colAt i).filter (fun v => !v.isna) = [] := by
    rw [List.filter_eq_nil_iff]
    intro v hv
    simp [List.all_eq_true.1 hall v hv]
  rw [hfil]
  rfl

theorem expectedNormCol_base (df : DynTable) (i : Nat) (base : ℚ)
    (hh : ((df.colAt i).filter (fun v => !v.isna)).head? = some (.vnum base)) :
    expectedNormCol df i = (df.colAt i).map (rebase_cell base) := by
  unfold expectedNormCol
  rw [hh]

/-- Rebasing against a zero base never produces a finite float: every cell
becomes `inf`, `-inf` or `NaN` — never an error. -/
theorem rebase_cell_zero (v : PyVal) :
    rebase_cell 0 v = .vinf ∨ rebase_cell 0 v = .vninf ∨
      rebase_cell 0 v = .vnan := by
  cases v with
  | vnum q =>
    unfold rebase_cell
    dsimp only
    rw [if_pos rfl]
    by_cases h1 : 0 < q
    · rw [if_pos h1]
      exact Or.inl rfl
    · rw [if_neg h1]
      by_cases h2 : q < 0
      · rw [if_pos h2]
        exact Or.inr (Or.inl rfl)
      · rw [if_neg h2]
        exact Or.inr (Or.inr rfl)
  | vstr s => exact Or.inr (Or.inr rfl)
  | vdate d => exact Or.inr (Or.inr rfl)
  | vnull => exact Or.inr (Or.inr rfl)
  | vnan => exact Or.inr (Or.inr rfl)
  | vinf => exact Or.inr (Or.inr rfl)
  | vninf => exact Or.inr (Or.inr rfl)

/-- Rebasing with a nonzero base computes `(value/base - 1) * 100`. -/
theorem rebase_cell_num (base x : ℚ) (hb : base ≠ 0) :
    rebase_cell base (.vnum x) = .vnum ((x / base - 1) * 100) := by
  simp [rebase_cell, hb]

/-- Rebasing propagates missing values as `NaN` (na in, na out). -/
theorem rebase_cell_na (base : ℚ) (v : PyVal) (hv : v.isna = true) :
    (rebase_cell base v).isna = true := by
  cases v <;> simp_all [rebase_cell, PyVal.isna]

/-! ### Structure of `filter_period` -/

theorem date_ble_refl (d : Date) : Date.ble d d = true := by
  simp [Date.ble]

theorem date_ble_trans {a b c : Date} (h1 : Date.ble a b = true)
    (h2 : Date.ble b c = true) : Date.ble a c = true := by
  simp only [Date.ble, Nat.ble_eq] at h1 h2 ⊢
  omega

theorem date_ble_of_blt {a b : Date} (h : Date.blt a b = true) :
    Date.ble a b = true := by
  simp only [Date.blt, Nat.blt_eq] at h
  simp only [Date.ble, Nat.ble_eq]
  omega

theorem date_ble_of_not_blt {a b : Date} (h : ¬ Date.blt a b = true) :
    Date.ble b a = true := by
  simp only [Date.blt, Nat.blt_eq] at h
  simp only [Date.ble, Nat.ble_eq]
  omega

theorem dateMax_go_spec :
    ∀ (ds : List Date) (d : Date),
      (ds.foldl (fun m x => if Date.blt m x then x else m) d) ∈ d :: ds ∧
      ∀ x ∈ d :: ds,
        Date.ble x (ds.foldl (fun m x => if Date.blt m x then x else m) d) = true
  | [], d => ⟨List.mem_cons_self d [], by
      intro x hx
      rcases List.mem_cons.1 hx with rfl | hx2
      · exact date_ble_refl x
      · simp at hx2⟩
  | y :: ds, d => by
    simp only [List.foldl_cons]
    obtain ⟨hmem, hble⟩ := dateMax_go_spec ds (if Date.blt d y then y else d)
    constructor
    · rcases List.mem_cons.1 hmem with h | h
      · rw [h]
        split
        · exact List.mem_cons_of_mem d (List.mem_cons_self y ds)
        · exact List.mem_cons_self d (y :: ds)
      · exact List.mem_cons_of_mem d (List.mem_cons_of_mem y h)
    · intro x hx
      have hdy : Date.ble d (if Date.blt d y then y else d) = true := by
        split
        · next hlt => exact date_ble_of_blt hlt
        · exact date_ble_refl d
      have hyy : Date.ble y (if Date.blt d y then y else d) = true := by
        split
        · exact date_ble_refl y
        · next hlt => exact date_ble_of_not_blt hlt
      have hhead := hble _ (List.mem_cons_self _ ds)
      rcases List.mem_cons.1 hx with rfl | hx2
      · exact date_ble_trans hdy hhead
      · rcases List.mem_cons.1 hx2 with rfl | hx3
        · exact date_ble_trans hyy hhead
        · exact hble x (List.mem_cons_of_mem _ hx3)

/-- `Series.max()` returns an element of the column that bounds every
other element from above. -/
theorem dateMax?_spec (l : List Date) (e : Date) (h : dateMax? l = some e) :
    e ∈ l ∧ ∀ d ∈ l, Date.ble d e = true := by
  cases l with
  | nil => cases h
  | cons d ds =>
    obtain ⟨hmem, hble⟩ := dateMax_go_spec ds d
    unfold dateMax? at h
    have he : ds.foldl (fun m x => if Date.blt m x then x else m) d = e :=
      Option.some.inj h
    rw [he] at hmem hble
    exact ⟨hmem, hble⟩

theorem dateMin_go_spec :
    ∀ (ds : List Date) (d : Date),
      (ds.foldl (fun m x => if Date.blt x m then x else m) d) ∈ d :: ds ∧
      ∀ x ∈ d :: ds,
        Date.ble (ds.foldl (fun m x => if Date.blt x m then x else m) d) x = true
  | [], d => ⟨List.mem_cons_self d [], by
      intro x hx
      rcases List.mem_cons.1 hx with rfl | hx2
      · exact date_ble_refl x
      · simp at hx2⟩
  | y :: ds, d => by
    simp only [List.foldl_cons]
    obtain ⟨hmem, hble⟩ := dateMin_go_spec ds (if Date.blt y d then y else d)
    constructor
    · rcases List.mem_cons.1 hmem with h | h
      · rw [h]
        split
        · exact List.mem_cons_of_mem d (List.mem_cons_self y ds)
        · exact List.mem_cons_self d (y :: ds)
      · exact List.mem_cons_of_mem d (List.mem_cons_of_mem y h)
    · intro x hx
      have hdy : Date.ble (if Date.blt y d then y else d) d = true := by
        split
        · next hlt => exact date_ble_of_blt hlt
        · exact date_ble_refl d
      have hyy : Date.ble (if Date.blt y d then y else d) y = true := by
        split
        · exact date_ble_refl y
        · next hlt => exact date_ble_of_not_blt hlt
      have hhead := hble _ (List.mem_cons_self _ ds)
      rcases List.mem_cons.1 hx with rfl | hx2
      · exact date_ble_trans hhead hdy
      · rcases List.mem_cons.1 hx2 with rfl | hx3
        · exact date_ble_trans hhead hyy
        · exact hble x (List.mem_cons_of_mem _ hx3)

/-- `Series.min()` returns an element of the column that bounds every
other element from below. -/
theorem dateMin?_spec (l : List Date) (e : Date) (h : dateMin? l = some e) :
    e ∈ l ∧ ∀ d ∈ l, Date.ble e d = true := by
  cases l with
  | nil => cases h
  | cons d ds =>
    obtain ⟨hmem, hble⟩ := dateMin_go_spec ds d
    unfold dateMin? at h
    have he : ds.foldl (fun m x => if Date.blt x m then x else m) d = e :=
      Option.some.inj h
    rw [he] at hmem hble
    exact ⟨hmem, hble⟩

/-- Full characterization of `filter_period` on tidy frames: it never
fails; an empty frame is returned unchanged (the same frame); otherwise
`end` is the maximum of the `Date` column, `start` comes from
`periodStart` and exactly the rows with `start ≤ Date ≤ end` survive, in
order. -/
theorem filter_period_spec (df : DynTable) (period_key : String) (di : Nat)
    (hdi : df.colIdx? ("Date") = some di)
    (hdates : ∀ r ∈ df.cells, ∃ d, cellAt r di = PyVal.vdate d) :
    (df.cells = [] → filter_period df period_key = .ok df) ∧
    (df.cells ≠ [] →
      ∃ e, dateMax? ((df.colAt di).filterMap PyVal.toDate) = some e ∧
        filter_period df period_key = .ok
          { df with cells := df.cells.filter (fun r =>
              match (cellAt r di).toDate with
              | some d => Date.ble (periodStart
                  ((df.colAt di).filterMap PyVal.toDate) e period_key) d
                  && Date.ble d e
              | none => false) }) := by
  constructor
  · intro hempty
    unfold filter_period
    rw [if_pos (by simp [hempty])]
  · intro hne
    obtain ⟨r0, hr0⟩ := List.exists_mem_of_ne_nil df.cells hne
    obtain ⟨d0, hd0⟩ := hdates r0 hr0
    have hd0mem : d0 ∈ (df.colAt di).filterMap PyVal.toDate := by
      rw [List.mem_filterMap]
      refine ⟨cellAt r0 di, ?_, by rw [hd0]; rfl⟩
      unfold DynTable.colAt
      exact List.mem_map_of_mem _ hr0
    have hnonnil : (df.colAt di).filterMap PyVal.toDate ≠ [] :=
      fun hcon => by rw [hcon] at hd0mem; cases hd0mem
    obtain ⟨e0, he0⟩ : ∃ e, dateMax? ((df.colAt di).filterMap PyVal.toDate)
        = some e := by
      cases hl : (df.colAt di).filterMap PyVal.toDate with
      | nil => exact absurd hl hnonnil
      | cons a as => exact ⟨_, rfl⟩
    refine ⟨e0, he0, ?_⟩
    unfold filter_period
    rw [if_neg (by simp [hne]), hdi]
    dsimp only
    rw [he0]

/-! ### Heap facts: what the pipeline writes and what it leaves alone -/

theorem href_append (h l : Heap) (r : Nat) (hr : r < h.length) :
    href (h ++ l) r = href h r := by
  unfold href
  rw [List.getD_eq_getElem?_getD, List.getD_eq_getElem?_getD,
    List.getElem?_append_left hr]

theorem href_set_ne (h : Heap) (i : Nat) (x : DynTable) (r : Nat)
    (hne : r ≠ i) : href (h.set i x) r = href h r := by
  unfold href
  rw [List.getD_eq_getElem?_getD, List.getD_eq_getElem?_getD,
    List.getElem?_set_ne (Ne.symm hne)]

theorem href_set_self (h : Heap) (i : Nat) (x : DynTable)
    (hi : i < h.length) : href (h.set i x) i = x := by
  unfold href
  rw [List.getD_eq_getElem?_getD, List.getElem?_set_self hi]
  rfl

theorem href_concat (h : Heap) (x : DynTable) :
    href (h ++ [x]) h.length = x := by
  unfold href
  rw [List.getD_eq_getElem?_getD, List.getElem?_concat_length]
  rfl

/-- The heap Tidier never writes to a pre-existing frame: every reference
alive before the call still holds the same frame after it (the caller's
input table in particular). -/
theorem tidy_df_heap_preserves (h : Heap) (r i : Nat) (hi : i < h.length) :
    href (tidy_df_heap h r).1 i = href h i := by
  unfold tidy_df_heap
  dsimp only
  have hne : i ≠ h.length := Nat.ne_of_lt hi
  have happ : i < (h ++ [href h r]).length := by
    simp only [List.length_append, List.length_cons, List.length_nil]
    omega
  split
  · rw [href_set_ne _ _ _ _ hne, href_append _ _ _ hi]
  · split
    · rw [href_append _ _ _ (by simp; omega),
        href_set_ne _ _ _ _ hne, href_set_ne _ _ _ _ hne,
        href_set_ne _ _ _ _ hne, href_append _ _ _ hi]
    · rw [href_set_ne _ _ _ _ hne, href_append _ _ _ hi]

/-- The heap Period Filter writes to no frame at all. -/
theorem filter_period_heap_preserves (h : Heap) (r : Nat)
    (period_key : String) (i : Nat) (hi : i < h.length) :
    href (filter_period_heap h r period_key).1 i = href h i := by
  unfold filter_period_heap
  dsimp only
  split
  · rfl
  · split
    · exact href_append _ _ _ hi
    · rfl

theorem normColumns_preserves (df : DynTable) (rOut : Nat) :
    ∀ (cs : List String) (h : Heap) (i : Nat), i ≠ rOut →
      href (normColumns df rOut cs h).1 i = href h i
  | [], _, _, _ => rfl
  | c :: cs, h, i, hne => by
    unfold normColumns
    dsimp only
    split
    · rfl
    · split
      · rw [normColumns_preserves df rOut cs _ i hne,
          href_set_ne _ _ _ _ hne]
      · rw [normColumns_preserves df rOut cs _ i hne,
          href_set_ne _ _ _ _ hne]
      · rfl

/-- The heap Rebaser only ever writes to the fresh output frame: every
pre-existing reference is untouched. -/
theorem normalize_from_first_heap_preserves (h : Heap) (r : Nat)
    (cols : List String) (i : Nat) (hi : i < h.length) :
    href (normalize_from_first_heap h r cols).1 i = href h i := by
  unfold normalize_from_first_heap
  dsimp only
  split
  · rfl
  · rw [normColumns_preserves (href h r) h.length cols _ i (Nat.ne_of_lt hi),
      href_append _ _ _ hi]

/-- The heap Period Filter computes, as returned object, exactly the pure
`filter_period` of the frame it was pointed at. -/
theorem runFrame_filter (h : Heap) (r : Nat) (period_key : String) :
    runFrame (filter_period_heap h r period_key)
      = filter_period (href h r) period_key := by
  unfold filter_period_heap
  dsimp only
  split
  · next hemp =>
    unfold filter_period runFrame
    rw [if_pos hemp]
  · split
    · next res heq =>
      unfold runFrame
      dsimp only
      rw [href_concat, heq]
    · next e heq =>
      unfold runFrame
      rw [heq]

theorem normColumns_runFrame (df : DynTable) :
    ∀ (cs : List String) (h : Heap) (rOut : Nat), rOut < h.length →
      runFrame (normColumns df rOut cs h)
        = cs.foldlM (normStep df) (href h rOut)
  | [], h, rOut, _ => rfl
  | c :: cs, h, rOut, hlt => by
    rw [List.foldlM_cons]
    have hset : ∀ vals : List PyVal,
        href (h.set rOut ((href h rOut).upsertCol c vals)) rOut
          = (href h rOut).upsertCol c vals :=
      fun vals => href_set_self _ _ _ hlt
    unfold normColumns
    dsimp only
    rcases hci : df.colIdx? c with - | i
    · dsimp only
      have hns : normStep df (href h rOut) c = .error (.keyError c) := by
        unfold normStep
        rw [hci]
      rw [hns]
      rfl
    · dsimp only
      rcases hh : ((df.colAt i).filter (fun v => !v.isna)).head? with - | v
      · have hns : normStep df (href h rOut) c = .ok
            ((href h rOut).upsertCol c (List.replicate df.nrows PyVal.vnull)) := by
          unfold normStep
          rw [hci]
          dsimp only
          rw [hh]
        rw [hh, hns]
        rw [normColumns_runFrame df cs _ rOut (by simpa using hlt), hset]
        rfl
      · cases v with
        | vnum base =>
          have hns : normStep df (href h rOut) c = .ok
              ((href h rOut).upsertCol c ((df.colAt i).map (rebase_cell base))) := by
            unfold normStep
            rw [hci]
            dsimp only
            rw [hh]
          rw [hh, hns]
          rw [normColumns_runFrame df cs _ rOut (by simpa using hlt), hset]
          rfl
        | vstr s =>
          have hns : normStep df (href h rOut) c = .error .typeError := by
            unfold normStep
            rw [hci]
            dsimp only
            rw [hh]
          rw [hh, hns]
          rfl
        | vdate d =>
          have hns : normStep df (href h rOut) c = .error .typeError := by
            unfold normStep
            rw [hci]
            dsimp only
            rw [hh]
          rw [hh, hns]
          rfl
        | vnull =>
          have hns : normStep df (href h rOut) c = .error .typeError := by
            unfold normStep
            rw [hci]
            dsimp only
            rw [hh]
          rw [hh, hns]
          rfl
        | vnan =>
          have hns : normStep df (href h rOut) c = .error .typeError := by
            unfold normStep
            rw [hci]
            dsimp only
            rw [hh]
          rw [hh, hns]
          rfl
        | vinf =>
          have hns : normStep df (href h rOut) c = .error .typeError := by
            unfold normStep
            rw [hci]
            dsimp only
            rw [hh]
          rw [hh, hns]
          rfl
        | vninf =>
          have hns : normStep df (href h rOut) c = .error .typeError := by
            unfold normStep
            rw [hci]
            dsimp only
            rw [hh]
          rw [hh, hns]
          rfl

/-- The heap Rebaser computes, as returned object, exactly the pure
`normalize_from_first` of the frame it was pointed at. -/
theorem runFrame_normalize (h : Heap) (r : Nat) (cols : List String) :
    runFrame (normalize_from_first_heap h r cols)
      = normalize_from_first (href h r) cols := by
  unfold normalize_from_first_heap normalize_from_first
  dsimp only
  split
  · rfl
  · rw [normColumns_runFrame (href h r) cols _ h.length (by simp),
      href_concat]

theorem filter_period_heap_length (h : Heap) (r : Nat)
    (period_key : String) :
    h.length ≤ (filter_period_heap h r period_key).1.length := by
  unfold filter_period_heap
  dsimp only
  split
  · exact Nat.le_refl _
  · split
    · simp
    · exact Nat.le_refl _

theorem normColumns_length (df : DynTable) (rOut : Nat) :
    ∀ (cs : List String) (h : Heap),
      h.length ≤ (normColumns df rOut cs h).1.length
  | [], _ => Nat.le_refl _
  | c :: cs, h => by
    unfold normColumns
    dsimp only
    split
    · exact Nat.le_refl _
    · split
      · exact Nat.le_trans (by simp [List.length_set])
          (normColumns_length df rOut cs _)
      · exact Nat.le_trans (by simp [List.length_set])
          (normColumns_length df rOut cs _)
      · exact Nat.le_refl _

/-- The filter-then-rebase step of the app, on the heap, returns the pure
composition of `filter_period` and `normalize_from_first` applied to the
input frame. -/
theorem runFrame_pipeline (h : Heap) (r : Nat) (period_key : String)
    (cols : List String) :
    runFrame (run_pipeline h r period_key cols)
      = (filter_period (href h r) period_key).bind
          (fun dff => normalize_from_first dff cols) := by
  unfold run_pipeline
  rcases hfp : filter_period_heap h r period_key with ⟨h1, e1⟩
  have hrf := runFrame_filter h r period_key
  rw [hfp] at hrf
  cases e1 with
  | error e =>
    unfold runFrame at hrf ⊢
    dsimp only at hrf ⊢
    rw [← hrf]
    rfl
  | ok rf =>
    unfold runFrame at hrf
    dsimp only at hrf
    rw [← hrf]
    dsimp only [Except.bind]
    exact runFrame_normalize h1 rf cols

theorem run_pipeline_preserves (h : Heap) (r : Nat) (period_key : String)
    (cols : List String) (i : Nat) (hi : i < h.length) :
    href (run_pipeline h r period_key cols).1 i = href h i := by
  unfold run_pipeline
  rcases hfp : filter_period_heap h r period_key with ⟨h1, e1⟩
  have hpres := filter_period_heap_preserves h r period_key i hi
  have hlen := filter_period_heap_length h r period_key
  rw [hfp] at hpres hlen
  cases e1 with
  | error e => exact hpres
  | ok rf =>
    dsimp only
    rw [normalize_from_first_heap_preserves h1 rf cols i
      (Nat.lt_of_lt_of_le hi hlen)]
    exact hpres

theorem run_pipeline_length (h : Heap) (r : Nat) (period_key : String)
    (cols : List String) :
    h.length ≤ (run_pipeline h r period_key cols).1.length := by
  unfold run_pipeline
  rcases hfp : filter_period_heap h r period_key with ⟨h1, e1⟩
  have hlen := filter_period_heap_length h r period_key
  rw [hfp] at hlen
  cases e1 with
  | error e => exact hlen
  | ok rf =>
    dsimp only
    refine Nat.le_trans hlen ?_
    unfold normalize_from_first_heap
    dsimp only
    split
    · exact Nat.le_refl _
    · exact Nat.le_trans (by simp) (normColumns_length _ _ cols _)

/-! ### The claims -/

theorem getD_of_get?_eq_some {α : Type} {l : List α} {i : Nat} {x : α}
    (d : α) (h : l.get? i = some x) : l.getD i d = x := by
  rw [List.getD_eq_getElem?_getD, ← List.get?_eq_getElem?, h]
  rfl

/-- C1, counterexample: the Rebaser is claimed never to fail, with a
selected column name absent from the table yielding an all-null output
column; in the code `s = df[c].dropna()` looks the column up first, so an
absent label raises `KeyError` instead. -/
theorem C1_counterexample :
    (("X") ∉ tblOneRow.headers) ∧
    normalize_from_first tblOneRow [("X")] = .error (.keyError ("X")) := by
  constructor
  · decide
  · rfl

/-- C1 (amended): for selected columns that are present in the table (and
hold float data, as every tidied series column does), the Rebaser never
fails, and a column that is entirely null in the window produces an
entirely null output column; a selected column name that is not present
raises `KeyError` instead. -/
theorem C1_amended (df : DynTable) (cols : List String) (di : Nat)
    (hdate : df.colIdx? ("Date") = some di)
    (hcols : ∀ c ∈ cols, ∃ i, df.colIdx? c = some i ∧
      (df.colAt i).all PyVal.isNumLike = true) :
    ∃ res, normalize_from_first df cols = .ok res ∧
      ∀ c ∈ cols, ∀ i, df.colIdx? c = some i →
        (df.colAt i).all PyVal.isna = true →
        ∃ out, res.col? c = some out ∧ out.all PyVal.isna = true := by
  obtain ⟨res, hok, -, hcolsR⟩ := normalize_from_first_ok df cols di hdate hcols
  refine ⟨res, hok, ?_⟩
  intro c hc i hci hall
  refine ⟨_, hcolsR c hc i hci, ?_⟩
  rw [expectedNormCol_allna df i hall]
  rw [List.all_eq_true]
  intro v hv
  rw [List.eq_of_mem_replicate hv]
  rfl

/-- C1, witness: rebasing the all-null present column `B` succeeds and
yields an all-null output column. -/
theorem C1_witness :
    ∃ res, normalize_from_first tblAllNull [("B")] = .ok res ∧
      ∀ c ∈ [("B")], ∀ i, tblAllNull.colIdx? c = some i →
        (tblAllNull.colAt i).all PyVal.isna = true →
        ∃ out, res.col? c = some out ∧ out.all PyVal.isna = true :=
  C1_amended tblAllNull [("B")] 0 (by decide) (by
    intro c hc
    have hcB : c = ("B") := by
      cases hc with
      | head => rfl
      | tail _ h => cases h
    rw [hcB]
    exact ⟨1, by decide, by decide⟩)

/-- C2, counterexample: the claim says equal-date rows keep their original
relative order for every input; on this 17-row table (all dates equal,
rows distinguished by column `V`), numpy's default quicksort partitioning
swaps them: the input has `V = 2` at row 1 and `V = 15` at row 14, the
tidied output has `V = 15` at row 1 and `V = 2` at row 14. -/
theorem C2_counterexample :
    ((tidy_df tblTies17).toOption.map
        (fun t => (t.cells.getD 1 [], t.cells.getD 14 []))) =
      some ([PyVal.vdate ⟨2024, 1, 1⟩, PyVal.vnum 15],
            [PyVal.vdate ⟨2024, 1, 1⟩, PyVal.vnum 2])
    ∧ tblTies17.cells.getD 1 [] = [PyVal.vstr ("1/1/2024"), PyVal.vnum 2]
    ∧ tblTies17.cells.getD 14 [] = [PyVal.vstr ("1/1/2024"), PyVal.vnum 15] := by
  decide

/-- C2 (amended): the Tidier's sort keeps every row with its multiplicity
(duplicate dates are both retained, nothing is deduplicated), but tie
order is only guaranteed for tables whose kept rows number at most 16,
where numpy's quicksort degenerates to a stable insertion sort: there the
output is gathered along an index permutation sorted by date key with
ties in original position order, and the rows come out weakly ascending
by date.  For larger tables the partitioning step can reorder equal-date
rows (see the 17-row counterexample). -/
theorem C2_amended (df0 : DynTable) (di : Nat)
    (hdi : (df0.headers.map pyStrip).findIdx? (· == ("Date")) = some di)
    (hnodup : (df0.headers.map pyStrip).Nodup)
    (hrect : RectT df0) :
    ∃ t, tidy_df df0 = .ok t ∧
      List.Perm t.cells
        (df0.cells.filterMap (tidyRowSpec df0.headers.length di)) ∧
      ((df0.cells.filterMap (tidyRowSpec df0.headers.length di)).length ≤ 16 →
        ∃ idx,
          List.Perm idx (List.range
            (df0.cells.filterMap (tidyRowSpec df0.headers.length di)).length) ∧
          idx.Pairwise (lexlt (fun k => rowDateKey di
            ((df0.cells.filterMap (tidyRowSpec df0.headers.length di)).getD k []))) ∧
          t.cells = idx.filterMap (fun k =>
            (df0.cells.filterMap (tidyRowSpec df0.headers.length di)).get? k) ∧
          t.cells.Pairwise (fun r1 r2 =>
            rowDateKey di r1 ≤ rowDateKey di r2)) := by
  have hok := tidy_df_ok df0 di hdi hnodup hrect
  refine ⟨_, hok, sortValuesDate_perm _ di, ?_⟩
  intro h16
  obtain ⟨idx, hperm, hpw, heq⟩ := sortValuesDate_small
    (df0.cells.filterMap (tidyRowSpec df0.headers.length di)) di h16
  refine ⟨idx, hperm, hpw, heq, ?_⟩
  rw [heq]
  refine List.Pairwise.filterMap _ ?_ hpw
  intro a b hab x hx y hy
  have hxa : (df0.cells.filterMap (tidyRowSpec df0.headers.length di)).getD a []
      = x := getD_of_get?_eq_some [] hx
  have hyb : (df0.cells.filterMap (tidyRowSpec df0.headers.length di)).getD b []
      = y := getD_of_get?_eq_some [] hy
  rcases hab with hlt | ⟨heq2, -⟩
  · rw [← hxa, ← hyb]
    exact Nat.le_of_lt hlt
  · rw [← hxa, ← hyb]
    exact Nat.le_of_eq heq2

/-- C2, witness: on the 3-row table with a duplicated date the sort is the
stable insertion sort. -/
theorem C2_witness :
    ∃ t, tidy_df tblTies3 = .ok t ∧
      List.Perm t.cells
        (tblTies3.cells.filterMap (tidyRowSpec tblTies3.headers.length 0)) ∧
      ((tblTies3.cells.filterMap (tidyRowSpec tblTies3.headers.length 0)).length ≤ 16 →
        ∃ idx,
          List.Perm idx (List.range
            (tblTies3.cells.filterMap (tidyRowSpec tblTies3.headers.length 0)).length) ∧
          idx.Pairwise (lexlt (fun k => rowDateKey 0
            ((tblTies3.cells.filterMap (tidyRowSpec tblTies3.headers.length 0)).getD k []))) ∧
          t.cells = idx.filterMap (fun k =>
            (tblTies3.cells.filterMap (tidyRowSpec tblTies3.headers.length 0)).get? k) ∧
          t.cells.Pairwise (fun r1 r2 =>
            rowDateKey 0 r1 ≤ rowDateKey 0 r2)) :=
  C2_amended tblTies3 0 (by decide) (by decide) (by unfold RectT; decide)

/-- C5: the Tidier raises its `ValueError` (`SchemaError`) exactly when no
`Date` column exists after trimming whitespace from the headers, and in
that failure case no tidy table is produced. -/
theorem C5 (df0 : DynTable) :
    (tidy_df df0 = .error .schemaError ↔
      ("Date") ∉ df0.headers.map pyStrip) ∧
    (∀ t, tidy_df df0 = .ok t → ("Date") ∈ df0.headers.map pyStrip) ∧
    (tidy_df df0 = .error .schemaError → ∀ t, ¬ tidy_df df0 = .ok t) := by
  refine ⟨tidy_df_schemaError_iff df0, ?_, ?_⟩
  · intro t ht
    exact ((tidy_df_isOk_iff df0).1 ⟨t, ht⟩).1
  · intro herr t hcon
    rw [herr] at hcon
    cases hcon

/-- C5, witness: a frame with no `Date` header raises the `SchemaError`,
and a padded header ` Date ` counts as present after trimming. -/
theorem C5_witness :
    tidy_df tblNoDate = .error .schemaError ∧
    ("Date") ∉ tblNoDate.headers.map pyStrip ∧
    ("Date") ∈ tblPadded.headers.map pyStrip ∧
    ¬ tidy_df tblPadded = .error .schemaError :=
  ⟨(C5 tblNoDate).1.2 (by decide), by decide, by decide,
    fun hcon => by
      have := (C5 tblPadded).1.1 hcon
      exact this (by decide)⟩

/-- C3: on a (sorted) filtered table, for a selected float column that is
present with at least one non-na value, the Rebaser succeeds, keeps the
row count, takes `base` as the first non-na value in row order (ascending
date order) and rebases every cell by `(value/base - 1) * 100`, missing
inputs staying missing.  The zero-base case is covered by the claim about
unguarded division. -/
theorem C3 (df : DynTable) (cols : List String) (c : String) (di i : Nat)
    (base : ℚ) (hdate : df.colIdx? ("Date") = some di)
    (_hsorted : df.cells.Pairwise (fun r1 r2 =>
      rowDateKey di r1 ≤ rowDateKey di r2))
    (hcols : ∀ c2 ∈ cols, ∃ j, df.colIdx? c2 = some j ∧
      (df.colAt j).all PyVal.isNumLike = true)
    (hc : c ∈ cols) (hci : df.colIdx? c = some i)
    (hbase : ((df.colAt i).filter (fun v => !v.isna)).head? = some (.vnum base))
    (hb : base ≠ 0) :
    ∃ res, normalize_from_first df cols = .ok res ∧
      res.nrows = df.nrows ∧
      res.col? c = some ((df.colAt i).map (rebase_cell base)) ∧
      (∀ x : ℚ, rebase_cell base (.vnum x) = .vnum ((x / base - 1) * 100)) ∧
      (∀ v : PyVal, v.isna = true → (rebase_cell base v).isna = true) := by
  obtain ⟨res, hok, hn, hcolsR⟩ := normalize_from_first_ok df cols di hdate hcols
  refine ⟨res, hok, hn, ?_, fun x => rebase_cell_num base x hb,
    fun v hv => rebase_cell_na base v hv⟩
  rw [hcolsR c hc i hci, expectedNormCol_base df i base hbase]

/-- C3, witness: rebasing the column 100, 110, 90 uses base 100 and
yields 0, 10, -10 percent. -/
theorem C3_witness :
    (∃ res, normalize_from_first tblRebase [("A")] = .ok res ∧
      res.nrows = tblRebase.nrows ∧
      res.col? ("A") = some ((tblRebase.colAt 1).map (rebase_cell 100)) ∧
      (∀ x : ℚ, rebase_cell 100 (.vnum x) = .vnum ((x / 100 - 1) * 100)) ∧
      (∀ v : PyVal, v.isna = true → (rebase_cell 100 v).isna = true)) ∧
    (tblRebase.colAt 1).map (rebase_cell 100)
      = [PyVal.vnum 0, PyVal.vnum 10, PyVal.vnum (-10)] := by
  constructor
  · exact C3 tblRebase [("A")] ("A") 0 1 100 (by decide) (by decide)
      (by
        intro c2 hc2
        have hcA : c2 = ("A") := by
          cases hc2 with
          | head => rfl
          | tail _ h => cases h
        rw [hcA]
        exact ⟨1, by decide, by decide⟩)
      (List.mem_cons_self _ _) (by decide) (by decide) (by norm_num)
  · have hcol : tblRebase.colAt 1
        = [PyVal.vnum 100, PyVal.vnum 110, PyVal.vnum 90] := rfl
    rw [hcol, List.map_cons, List.map_cons, List.map_cons, List.map_nil,
      rebase_cell_num 100 100 (by norm_num),
      rebase_cell_num 100 110 (by norm_num),
      rebase_cell_num 100 90 (by norm_num)]
    norm_num

/-- C4: on a tidy frame the Period Filter never fails; an empty frame is
returned unchanged; otherwise `end` is the maximum date present in the
table (not wall-clock time, which the model does not even have), and
exactly the rows with `start ≤ Date ≤ end` (inclusive on both ends)
survive, where `start` follows the five period rules: one calendar month
back, three calendar months back, January 1 of `end`'s year, one calendar
year back, and the minimum date for `MAX` or any unrecognized key. -/
theorem C4 (df : DynTable) (period_key : String) (di : Nat)
    (hdi : df.colIdx? ("Date") = some di)
    (hdates : df.cells.all (fun r => ((cellAt r di).toDate).isSome) = true) :
    (∃ res, filter_period df period_key = .ok res) ∧
    (df.cells = [] → filter_period df period_key = .ok df) ∧
    (df.cells ≠ [] → ∃ e,
      dateMax? ((df.colAt di).filterMap PyVal.toDate) = some e ∧
      e ∈ (df.colAt di).filterMap PyVal.toDate ∧
      (∀ d ∈ (df.colAt di).filterMap PyVal.toDate, Date.ble d e = true) ∧
      filter_period df period_key = .ok
        { df with cells := df.cells.filter (fun r =>
            match (cellAt r di).toDate with
            | some d => Date.ble (periodStart
                ((df.colAt di).filterMap PyVal.toDate) e period_key) d
                && Date.ble d e
            | none => false) }) ∧
    (∀ (dates : List Date) (e : Date),
      periodStart dates e ("1M") = subMonths e 1 ∧
      periodStart dates e ("3M") = subMonths e 3 ∧
      periodStart dates e ("YTD") = ⟨e.year, 1, 1⟩ ∧
      periodStart dates e ("1Y") = subYears e 1 ∧
      (∀ k : String, k ≠ ("1M") → k ≠ ("3M") → k ≠ ("YTD") → k ≠ ("1Y") →
        ∀ m, dateMin? dates = some m → periodStart dates e k = m)) := by
  have hdates2 : ∀ r ∈ df.cells, ∃ d, cellAt r di = PyVal.vdate d := by
    intro r hr
    have h1 := List.all_eq_true.1 hdates r hr
    cases hcell : cellAt r di with
    | vdate d => exact ⟨d, rfl⟩
    | vstr s => rw [hcell] at h1; simp [PyVal.toDate] at h1
    | vnum q => rw [hcell] at h1; simp [PyVal.toDate] at h1
    | vnull => rw [hcell] at h1; simp [PyVal.toDate] at h1
    | vnan => rw [hcell] at h1; simp [PyVal.toDate] at h1
    | vinf => rw [hcell] at h1; simp [PyVal.toDate] at h1
    | vninf => rw [hcell] at h1; simp [PyVal.toDate] at h1
  obtain ⟨hempty, hne⟩ := filter_period_spec df period_key di hdi hdates2
  refine ⟨?_, hempty, ?_, ?_⟩
  · by_cases hcase : df.cells = []
    · exact ⟨df, hempty hcase⟩
    · obtain ⟨e, -, hok⟩ := hne hcase
      exact ⟨_, hok⟩
  · intro hcase
    obtain ⟨e, hmax, hok⟩ := hne hcase
    obtain ⟨hmem, hbound⟩ := dateMax?_spec _ e hmax
    exact ⟨e, hmax, hmem, hbound, hok⟩
  · intro dates e
    refine ⟨rfl, rfl, rfl, rfl, ?_⟩
    intro k h1 h2 h3 h4 m hm
    unfold periodStart
    rw [if_neg (by simpa using h1), if_neg (by simpa using h2),
      if_neg (by simpa using h3), if_neg (by simpa using h4), hm]
    rfl

/-- C4, witness: on the two-year frame, `YTD` keeps exactly the rows from
January 1 of the last year present, and `1M` clamps a month back from the
maximum date; the 2023 row is outside both windows. -/
theorem C4_witness :
    (∃ res, filter_period tblWindow ("YTD") = .ok res) ∧
    filter_period tblWindow ("YTD") = .ok ⟨[("Date"), ("A")],
      [[PyVal.vdate ⟨2024, 1, 2⟩, PyVal.vnum 2],
       [PyVal.vdate ⟨2024, 3, 15⟩, PyVal.vnum 3],
       [PyVal.vdate ⟨2024, 6, 15⟩, PyVal.vnum 4]]⟩ ∧
    filter_period tblWindow ("1M") = .ok ⟨[("Date"), ("A")],
      [[PyVal.vdate ⟨2024, 6, 15⟩, PyVal.vnum 4]]⟩ :=
  ⟨(C4 tblWindow ("YTD") 0 (by decide) (by decide)).1, rfl, rfl⟩

/-- C6: with a usable header row, the Tidier always succeeds no matter
what the cells hold (parse anomalies are never propagated as errors); its
rows are a permutation of the per-row processing in which a row with an
unparseable `Date` cell is dropped entirely, while a row with a parseable
date is kept with every other cell numerically coerced — an unparseable
numeric cell becoming na (`NaN`) rather than rejecting the row. -/
theorem C6 (df0 : DynTable) (di : Nat)
    (hdi : (df0.headers.map pyStrip).findIdx? (· == ("Date")) = some di)
    (hnodup : (df0.headers.map pyStrip).Nodup)
    (hrect : RectT df0) :
    (∃ t, tidy_df df0 = .ok t ∧
      List.Perm t.cells
        (df0.cells.filterMap (tidyRowSpec df0.headers.length di))) ∧
    (∀ r, (to_datetime_cell (cellAt r di)).toDate = none →
      tidyRowSpec df0.headers.length di r = none) ∧
    (∀ r d, (to_datetime_cell (cellAt r di)).toDate = some d →
      tidyRowSpec df0.headers.length di r = some
        ((List.range df0.headers.length).map (fun j =>
          if j = di then PyVal.vdate d else coerce_cell (cellAt r j)))) ∧
    (∀ s, parse_float (commaToDot (removeSpaces s)) = none →
      (coerce_cell (.vstr s)).isna = true) ∧
    (∀ cells2, ∃ t2, tidy_df ⟨df0.headers, cells2⟩ = .ok t2) := by
  refine ⟨?_, ?_, ?_, ?_, ?_⟩
  · exact ⟨_, tidy_df_ok df0 di hdi hnodup hrect, sortValuesDate_perm _ di⟩
  · intro r h
    unfold tidyRowSpec
    rw [h]
  · intro r d h
    unfold tidyRowSpec
    rw [h]
  · intro s h
    simp [coerce_cell, h, PyVal.isna]
  · intro cells2
    refine (tidy_df_isOk_iff ⟨df0.headers, cells2⟩).2 ⟨?_, hnodup⟩
    obtain ⟨hlt, hp, -⟩ := List.findIdx?_eq_some_iff_getElem.1 hdi
    have hpd : (df0.headers.map pyStrip)[di] = ("Date") := by simpa using hp
    exact hpd ▸ List.getElem_mem hlt

/-- C6, witness: the row with the unparseable date is dropped, the row
with the unparseable numeric cell survives with that cell `NaN`. -/
theorem C6_witness :
    (∃ t, tidy_df tblAnomalies = .ok t ∧
      List.Perm t.cells
        (tblAnomalies.cells.filterMap
          (tidyRowSpec tblAnomalies.headers.length 0))) ∧
    (tidy_df tblAnomalies).toOption.map (fun t => t.cells)
      = some [[PyVal.vdate ⟨2024, 1, 1⟩, PyVal.vnum 2],
              [PyVal.vdate ⟨2024, 1, 2⟩, PyVal.vnan]] :=
  ⟨(C6 tblAnomalies 0 (by decide) (by decide) (by unfold RectT; decide)).1,
    by decide⟩

/-- C7: numeric coercion of a text cell removes every space, replaces
commas by periods and then parses the float, an unparseable cell becoming
na; in particular `"1 234,56"` coerces to the number 1234.56. -/
theorem C7 :
    (∀ s : String, coerce_cell (.vstr s)
        = match parse_float (commaToDot (removeSpaces s)) with
          | some q => .vnum q
          | none => .vnan) ∧
    coerce_cell (.vstr ("1 234,56")) = .vnum (123456 / 100) ∧
    (∀ s : String, parse_float (commaToDot (removeSpaces s)) = none →
      (coerce_cell (.vstr s)).isna = true) := by
  refine ⟨fun s => rfl, ?_, fun s h => by simp [coerce_cell, h, PyVal.isna]⟩
  have h1 : coerce_cell (.vstr ("1 234,56"))
      = .vnum (((1234 : Nat) : ℚ) + ((56 : Nat) : ℚ) / ((10 : ℚ)) ^ (2 : Nat)) :=
    rfl
  rw [h1]
  norm_num

/-- C7, witness: an unparseable cell coerces to na rather than erroring. -/
theorem C7_witness :
    parse_float (commaToDot (removeSpaces ("abc"))) = none ∧
    (coerce_cell (.vstr ("abc"))).isna = true :=
  ⟨by decide, (C7).2.2 ("abc") (by decide)⟩

theorem normColumns_ret (df : DynTable) (rOut : Nat) :
    ∀ (cs : List String) (h : Heap) (rt : Nat),
      (normColumns df rOut cs h).2 = .ok rt → rt = rOut
  | [], _, _, heq => (Except.ok.inj heq).symm
  | c :: cs, h, rt, heq => by
    unfold normColumns at heq
    dsimp only at heq
    split at heq
    · cases heq
    · split at heq
      · exact normColumns_ret df rOut cs _ rt heq
      · exact normColumns_ret df rOut cs _ rt heq
      · cases heq

/-- C8, counterexample: the claim says every step produces a new table;
`filter_period` on an empty frame executes `return df`, handing back the
caller's own object (reference 0, already alive) instead of a new one. -/
theorem C8_counterexample :
    filter_period_heap [tblEmpty] 0 ("1M") = ([tblEmpty], .ok 0) ∧
    (0 : Nat) < ([tblEmpty] : Heap).length := by
  exact ⟨rfl, by decide⟩

/-- C8 (amended): no pipeline step ever mutates an existing frame — every
reference alive before a call holds the same frame after it; the Tidier
and the Rebaser always return a freshly allocated frame, and the Period
Filter returns a fresh frame on nonempty input, but hands back the input
object itself on empty input. -/
theorem C8_amended :
    (∀ (h : Heap) (r i : Nat), i < h.length →
      href (tidy_df_heap h r).1 i = href h i) ∧
    (∀ (h : Heap) (r : Nat) (k : String) (i : Nat), i < h.length →
      href (filter_period_heap h r k).1 i = href h i) ∧
    (∀ (h : Heap) (r : Nat) (cols : List String) (i : Nat), i < h.length →
      href (normalize_from_first_heap h r cols).1 i = href h i) ∧
    (∀ (h : Heap) (r : Nat) (h2 : Heap) (rt : Nat),
      tidy_df_heap h r = (h2, .ok rt) → h.length ≤ rt) ∧
    (∀ (h : Heap) (r : Nat) (cols : List String) (h2 : Heap) (rt : Nat),
      normalize_from_first_heap h r cols = (h2, .ok rt) → h.length ≤ rt) ∧
    (∀ (h : Heap) (r : Nat) (k : String) (h2 : Heap) (rt : Nat),
      (href h r).cells ≠ [] →
      filter_period_heap h r k = (h2, .ok rt) → h.length ≤ rt) := by
  refine ⟨tidy_df_heap_preserves, filter_period_heap_preserves,
    normalize_from_first_heap_preserves, ?_, ?_, ?_⟩
  · intro h r h2 rt heq
    unfold tidy_df_heap at heq
    dsimp only at heq
    split at heq
    · cases heq
    · split at heq
      · rw [Prod.mk.injEq] at heq
        have hrt := Except.ok.inj heq.2
        rw [← hrt]
        simp
      · cases heq
  · intro h r cols h2 rt heq
    unfold normalize_from_first_heap at heq
    dsimp only at heq
    split at heq
    · cases heq
    · have hrt := normColumns_ret (href h r) h.length cols _ rt
        (by rw [heq])
      rw [hrt]
  · intro h r k h2 rt hne heq
    unfold filter_period_heap at heq
    dsimp only at heq
    rw [if_neg (by simpa using hne)] at heq
    split at heq
    · rw [Prod.mk.injEq] at heq
      have hrt := Except.ok.inj heq.2
      rw [← hrt]
    · cases heq

/-- C8, witness: on a one-row heap, each of the three steps leaves the
input frame untouched. -/
theorem C8_witness :
    href (tidy_df_heap [tblOneRow] 0).1 0 = href [tblOneRow] 0 ∧
    href (filter_period_heap [tblOneRow] 0 ("MAX")).1 0
      = href [tblOneRow] 0 ∧
    href (normalize_from_first_heap [tblOneRow] 0 [("A")]).1 0
      = href [tblOneRow] 0 :=
  ⟨C8_amended.1 [tblOneRow] 0 0 (by decide),
   C8_amended.2.1 [tblOneRow] 0 ("MAX") 0 (by decide),
   C8_amended.2.2.1 [tblOneRow] 0 [("A")] 0 (by decide)⟩

/-- C9: filtering then rebasing is deterministic across repeated runs: a
second run of `filter_period` + `normalize_from_first` over the same
reference, period key and selection — performed on the heap state the
first run left behind — returns exactly the same frame (or the same
error), because no step mutates the shared input. -/
theorem C9 (h : Heap) (r : Nat) (period_key : String) (cols : List String)
    (hr : r < h.length) :
    runFrame (run_pipeline (run_pipeline h r period_key cols).1 r
        period_key cols)
      = runFrame (run_pipeline h r period_key cols) := by
  rw [runFrame_pipeline, runFrame_pipeline,
    run_pipeline_preserves h r period_key cols r hr]

/-- C9, witness: two identical filter-plus-rebase runs on the rebasing
example frame agree. -/
theorem C9_witness :
    runFrame (run_pipeline (run_pipeline [tblRebase] 0 ("MAX") [("A")]).1 0
        ("MAX") [("A")])
      = runFrame (run_pipeline [tblRebase] 0 ("MAX") [("A")]) :=
  C9 [tblRebase] 0 ("MAX") [("A")] (by decide)

/-- C10: when a selected column's first non-na value is 0, the Rebaser
still returns without raising — the division by the zero base is
unguarded, and the affected cells come out as the floating-point
`inf`, `-inf` or `NaN`, never as an error. -/
theorem C10 (df : DynTable) (cols : List String) (c : String) (di i : Nat)
    (hdate : df.colIdx? ("Date") = some di)
    (hcols : ∀ c2 ∈ cols, ∃ j, df.colIdx? c2 = some j ∧
      (df.colAt j).all PyVal.isNumLike = true)
    (hc : c ∈ cols) (hci : df.colIdx? c = some i)
    (hbase : ((df.colAt i).filter (fun v => !v.isna)).head?
      = some (.vnum 0)) :
    ∃ res, normalize_from_first df cols = .ok res ∧
      res.col? c = some ((df.colAt i).map (rebase_cell 0)) ∧
      ∀ v ∈ (df.colAt i).map (rebase_cell 0),
        v = PyVal.vinf ∨ v = PyVal.vninf ∨ v = PyVal.vnan := by
  obtain ⟨res, hok, -, hcolsR⟩ := normalize_from_first_ok df cols di hdate hcols
  refine ⟨res, hok, ?_, ?_⟩
  · rw [hcolsR c hc i hci, expectedNormCol_base df i 0 hbase]
  · intro v hv
    obtain ⟨x, -, rfl⟩ := List.mem_map.1 hv
    exact rebase_cell_zero x

/-- C10, witness: rebasing the column 0, 5, null against its zero base
yields `NaN`, `inf`, `NaN` and no error. -/
theorem C10_witness :
    (∃ res, normalize_from_first tblZeroBase [("A")] = .ok res ∧
      res.col? ("A") = some ((tblZeroBase.colAt 1).map (rebase_cell 0)) ∧
      ∀ v ∈ (tblZeroBase.colAt 1).map (rebase_cell 0),
        v = PyVal.vinf ∨ v = PyVal.vninf ∨ v = PyVal.vnan) ∧
    (tblZeroBase.colAt 1).map (rebase_cell 0)
      = [PyVal.vnan, PyVal.vinf, PyVal.vnan] :=
  ⟨C10 tblZeroBase [("A")] ("A") 0 1 (by decide)
    (by
      intro c2 hc2
      have hcA : c2 = ("A") := by
        cases hc2 with
        | head => rfl
        | tail _ h2 => cases h2
      rw [hcA]
      exact ⟨1, by decide, by decide⟩)
    (List.mem_cons_self _ _) (by decide) (by decide), by decide⟩

end PensumChart
